import Mathlib

/-!
Verification development for the Speculator sample-playback engine
(`Source/SamplePlayer.h`, `Source/DSPUtils.h` and the engine translation
unit `SamplePlayer.cpp`).  C++ `float`/`double` arithmetic is embedded as
exact rational arithmetic (`ℚ`); transcendental C library calls
(`sin`, `cos`, `tanh`, `exp`, `pow`, `fmod`) have no exact rational
counterpart, so every engine operation takes a `MathCtx` record of the
rational functions standing for those calls.  Theorems quantify over the
context wherever the property does not depend on the transcendental
values; concrete witnesses instantiate it with stub functions that agree
with the real ones at the arguments actually used.
-/

namespace Speculator

/-- Rational stand-ins for the C math library calls made by the engine:
`pow2 x` models `std::pow(2.0f, x)`, `fmodTwoPi x` models
`std::fmod(x, 2.0 * M_PI)`, `pi` models `M_PI` (and JUCE's pi constant),
and `sinf`/`cosf`/`tanhf`/`expf` model the float trig/exponential calls. -/
structure MathCtx where
  pow2 : ℚ → ℚ
  fmodTwoPi : ℚ → ℚ
  pi : ℚ
  sinf : ℚ → ℚ
  cosf : ℚ → ℚ
  tanhf : ℚ → ℚ
  expf : ℚ → ℚ
deriving Inhabited

/-- Envelope states, from `SamplePlayer::Voice::Envelope::State`. -/
inductive EnvState where
  | Idle
  | Attack
  | Decay
  | Sustain
  | Release
deriving DecidableEq, Repr, Inhabited

/-- Per-voice ADSR envelope, from the `Envelope` struct nested in
`SamplePlayer::Voice` (`SamplePlayer.h`).  Field defaults mirror the C++
member initializers. -/
structure Envelope where
  attackTime : ℚ := 1/100
  decayTime : ℚ := 1/10
  sustainLevel : ℚ := 7/10
  releaseTime : ℚ := 1/5
  sampleRate : ℚ := 44100
  state : EnvState := .Idle
  currentLevel : ℚ := 0
  currentTime : ℚ := 0
deriving DecidableEq, Repr, Inhabited

namespace Envelope

/-- Translation of `Envelope::setParameters`. -/
def setParameters (e : Envelope) (attack decay sustain release sr : ℚ) : Envelope :=
  { e with attackTime := attack, decayTime := decay, sustainLevel := sustain,
           releaseTime := release, sampleRate := sr }

/-- Translation of `Envelope::process`.  Returns the updated envelope and
the level the C++ function returns (the updated `currentLevel`). -/
def process (e : Envelope) : Envelope × ℚ :=
  let timeInc := 1 / e.sampleRate
  match e.state with
  | .Attack =>
      let t := e.currentTime + timeInc
      let l := t / e.attackTime
      if 1 ≤ l then
        ({ e with currentLevel := 1, state := .Decay, currentTime := 0 }, 1)
      else
        ({ e with currentTime := t, currentLevel := l }, l)
  | .Decay =>
      let t := e.currentTime + timeInc
      let l := 1 - (1 - e.sustainLevel) * (t / e.decayTime)
      if l ≤ e.sustainLevel then
        ({ e with currentTime := t, currentLevel := e.sustainLevel, state := .Sustain },
          e.sustainLevel)
      else
        ({ e with currentTime := t, currentLevel := l }, l)
  | .Sustain =>
      ({ e with currentLevel := e.sustainLevel }, e.sustainLevel)
  | .Release =>
      let t := e.currentTime + timeInc
      let l := e.sustainLevel * (1 - t / e.releaseTime)
      if l ≤ 1/1000 then
        ({ e with currentTime := t, currentLevel := 0, state := .Idle }, 0)
      else
        ({ e with currentTime := t, currentLevel := l }, l)
  | .Idle =>
      ({ e with currentLevel := 0 }, 0)

/-- Translation of `Envelope::noteOn`.  The C++ body first assigns
`state = State::Attack; currentTime = 0.0f;` and only then tests
`if (state == State::Release)` — the test is kept here verbatim even
though the preceding assignment makes it unreachable. -/
def noteOn (e : Envelope) : Envelope :=
  let e1 := { e with state := EnvState.Attack, currentTime := 0 }
  if e1.state = EnvState.Release then
    { e1 with currentTime := (e1.currentLevel / 1) * e1.attackTime }
  else
    e1

/-- Translation of `Envelope::noteOff`. -/
def noteOff (e : Envelope) : Envelope :=
  if e.state ≠ EnvState.Idle then
    { e with state := EnvState.Release, currentTime := 0 }
  else
    e

end Envelope

/-- Single-pole DC blocking high-pass filter, from `DSPUtils::DCBlocker`
(`y[n] = x[n] - x[n-1] + R * y[n-1]` with `R = 0.995f`). -/
structure DCBlocker where
  x1 : ℚ := 0
  y1 : ℚ := 0
deriving DecidableEq, Repr, Inhabited

namespace DCBlocker

/-- Translation of `DCBlocker::process`. -/
def process (d : DCBlocker) (input : ℚ) : DCBlocker × ℚ :=
  let output := input - d.x1 + (199/200) * d.y1
  ({ x1 := input, y1 := output }, output)

/-- Translation of `DCBlocker::reset`. -/
def reset : DCBlocker := { x1 := 0, y1 := 0 }

end DCBlocker

/-- Biquad low-pass filter state, from `DSPUtils::ButterworthFilter`.
The C++ class stores coefficient arrays `a{1,0,0}` and `b{1,0,0}` of
which `a[1]`, `a[2]`, `b[0]`, `b[1]`, `b[2]` are used, plus the delay
lines `x[1]`, `x[2]`, `y[1]`, `y[2]`. -/
structure Butterworth where
  fs : ℚ := 44100
  a1 : ℚ := 0
  a2 : ℚ := 0
  b0 : ℚ := 1
  b1 : ℚ := 0
  b2 : ℚ := 0
  x1 : ℚ := 0
  x2 : ℚ := 0
  y1 : ℚ := 0
  y2 : ℚ := 0
deriving DecidableEq, Repr, Inhabited

namespace Butterworth

/-- Translation of `ButterworthFilter::setCutoff` (the `1.414213562f`
literal is the C++ source's approximation of `sqrt 2`). -/
def setCutoff (ctx : MathCtx) (f : Butterworth) (frequency : ℚ) : Butterworth :=
  let omega := 2 * ctx.pi * frequency / f.fs
  let cosOmega := ctx.cosf omega
  let alpha := ctx.sinf omega / (1414213562/1000000000)
  let a0 := 1 + alpha
  { f with b0 := (1 - cosOmega) / (2 * a0),
           b1 := (1 - cosOmega) / a0,
           b2 := (1 - cosOmega) / (2 * a0),
           a1 := (-2 * cosOmega) / a0,
           a2 := (1 - alpha) / a0 }

/-- Translation of `ButterworthFilter::process`. -/
def process (f : Butterworth) (input : ℚ) : Butterworth × ℚ :=
  let output := f.b0 * input + f.b1 * f.x1 + f.b2 * f.x2 - f.a1 * f.y1 - f.a2 * f.y2
  ({ f with x2 := f.x1, x1 := input, y2 := f.y1, y1 := output }, output)

end Butterworth

/-- Oversampling soft clipper, from `DSPUtils::SoftClipper` (holds the
intermediate low-pass filter; `OVERSAMPLE = 4`). -/
structure SoftClipper where
  filter : Butterworth := {}
deriving DecidableEq, Repr, Inhabited

namespace SoftClipper

/-- Translation of `SoftClipper::processSample`: input gain `0.686`,
`tanh`, then `copysign(1 - exp(-|x|), x)`. -/
def clipSample (ctx : MathCtx) (x : ℚ) : ℚ :=
  let x1 := x * (343/500)
  let x2 := ctx.tanhf x1
  let m := 1 - ctx.expf (-|x2|)
  if x2 < 0 then -|m| else |m|

/-- Translation of `SoftClipper::process`: the four oversampled points
are all copies of the input; each is clipped and run through the shared
low-pass filter (whose state threads across the four), then averaged. -/
def process (ctx : MathCtx) (sc : SoftClipper) (input : ℚ) : SoftClipper × ℚ :=
  let step := fun (acc : Butterworth × ℚ) (_ : ℕ) =>
    let o := clipSample ctx input
    let (f, o) := acc.1.process o
    (f, acc.2 + o)
  let r := (List.range 4).foldl step (sc.filter, 0)
  ({ filter := r.1 }, r.2 / 4)

end SoftClipper

/-- Peak limiter, from `DSPUtils::PeakLimiter` (threshold `0.95f`). -/
structure PeakLimiter where
  envelope : ℚ := 0
  attackTime : ℚ := 0
  releaseTime : ℚ := 0
  threshold : ℚ := 19/20
deriving DecidableEq, Repr, Inhabited

namespace PeakLimiter

/-- Translation of `PeakLimiter::process`. -/
def process (pl : PeakLimiter) (input : ℚ) : PeakLimiter × ℚ :=
  let inputAbs := |input|
  let env :=
    if pl.envelope < inputAbs then pl.attackTime * (pl.envelope - inputAbs) + inputAbs
    else pl.releaseTime * (pl.envelope - inputAbs) + inputAbs
  let gain := if pl.threshold < env then pl.threshold / env else 1
  ({ pl with envelope := env }, input * gain)

end PeakLimiter

/-- Translation of `Resampler::sincInterpolate`. -/
def sincInterpolate (ctx : MathCtx) (x : ℚ) : ℚ :=
  if x = 0 then 1
  else
    let px := ctx.pi * x
    ctx.sinf px / px

/-- Translation of `Resampler::resample`: a windowed-sinc sum over taps
`pos - 8 .. pos + 8` with out-of-range taps skipped (`SINC_POINTS = 8`).
The resampler itself is stateless (`buildKernel` is empty). -/
def resample (ctx : MathCtx) (input : List ℚ) (position : ℚ) (bufferSize : ℕ) : ℚ :=
  let pos : ℤ := ⌊position⌋
  let frac : ℚ := position - pos
  (List.range 17).foldl
    (fun sum k =>
      let i : ℤ := (k : ℤ) - 8
      let readPos := pos + i
      if 0 ≤ readPos ∧ readPos < (bufferSize : ℤ) then
        sum + input.getD readPos.toNat 0 * sincInterpolate ctx (frac - i)
      else sum)
    0

/-- Translation of `GrainWindow::getGainAt`: a Hann body with squared
easing over the outer `(1 - overlap) / 2` fraction on each edge. -/
def grainWindowGain (ctx : MathCtx) (phase overlap : ℚ) : ℚ :=
  let hann := (1/2) * (1 - ctx.cosf (2 * ctx.pi * phase))
  let edgeWidth := (1 - overlap) * (1/2)
  if phase < edgeWidth then
    let normPhase := phase / edgeWidth
    hann * (normPhase * normPhase)
  else if 1 - edgeWidth < phase then
    let normPhase := (1 - phase) / edgeWidth
    hann * (normPhase * normPhase)
  else hann

/-- Playback modes, from `SamplePlayer::PlaybackMode`. -/
inductive PlaybackMode where
  | Polyphonic
  | Monophonic
  | OneShot
deriving DecidableEq, Repr, Inhabited

/-- One grain, from the `Grain` struct nested in `SamplePlayer`.
Defaults mirror the C++ member initializers. -/
structure Grain where
  startPosition : ℚ := 0
  currentPosition : ℚ := 0
  grainLength : ℚ := 0
  age : ℚ := 0
  isActive : Bool := false
  phase : ℚ := 0
  initialPhase : ℚ := 0
  phaseIncrement : ℚ := 0
deriving DecidableEq, Repr, Inhabited

/-- One polyphonic playback slot, from the `Voice` struct nested in
`SamplePlayer`.  The `SamplePlayer` constructor re-assigns
`grainDuration = 0.1f` and `grainOverlap = 0.5f`, the same values as the
member initializers. -/
structure Voice where
  isActive : Bool := false
  position : ℚ := 0
  pitchRatio : ℚ := 1
  velocity : ℚ := 0
  midiNote : ℤ := -1
  lastOutputSample : ℚ := 0
  grains : List Grain := []
  grainDuration : ℚ := 1/10
  grainOverlap : ℚ := 1/2
  antiAliasFilter : Butterworth := {}
  dcBlocker : DCBlocker := {}
  softClipper : SoftClipper := {}
  envelope : Envelope := {}
deriving DecidableEq, Repr, Inhabited

namespace Voice

/-- Translation of `Voice::reset` (note: the envelope, filters other than
the DC blocker, pitch ratio, velocity and note number are untouched). -/
def reset (v : Voice) : Voice :=
  { v with isActive := false, position := 0, lastOutputSample := 0,
           grains := [], dcBlocker := DCBlocker.reset }

end Voice

/-- Engine state, from the private data members of `SamplePlayer`.
Audio buffers are lists of channels, each a list of samples; the format
manager, reader handle and the atomic wrapper around `currentLevel` have
no behavioural content beyond the decoded data and the stored value. -/
structure Player where
  voices : List Voice := List.replicate 16 {}
  fileBuffer : List (List ℚ) := []
  tempBuffer : List (List ℚ) := []
  currentSampleRate : ℚ := 44100
  fileSampleRate : ℚ := 44100
  sampleRateRatio : ℚ := 1
  playbackSpeed : ℚ := 1
  isLooping : Bool := false
  isHoldMode : Bool := false
  holdPosition : ℚ := 0
  isEnabled : Bool := true
  playbackMode : PlaybackMode := .Polyphonic
  currentLevel : ℚ := 0
  outputLimiter : PeakLimiter := {}
deriving DecidableEq, Repr, Inhabited

/-- Value of `fileBuffer.getNumSamples()`: the common length of the
buffer's channels (zero when no sample is loaded). -/
def numSamples (p : Player) : ℕ := (p.fileBuffer.headD []).length

/-- Translation of `SamplePlayer::findFreeVoice`: index of the first
inactive voice, none when every voice is active. -/
def findFreeVoice (p : Player) : Option ℕ :=
  p.voices.findIdx? (fun v => v.isActive = false)

/-- Exact value of `std::numeric_limits<float>::max()`, the initial
`lowestLevel` in `SamplePlayer::stealVoice`. -/
def floatMax : ℚ := 340282346638528859811704183484516925440

/-- Accumulator loop of `SamplePlayer::stealVoice`: scans the voices,
keeping the index of the first strictly-lowest `envelope.currentLevel`.
`i` is the index of the head of the remaining list and the accumulator
holds the best index and level seen so far. -/
def scanMinAux : ℕ → ℕ × ℚ → List Voice → ℕ × ℚ
  | _, acc, [] => acc
  | i, acc, v :: rest =>
      if v.envelope.currentLevel < acc.2 then
        scanMinAux (i + 1) (i, v.envelope.currentLevel) rest
      else
        scanMinAux (i + 1) acc rest

/-- Index chosen by `SamplePlayer::stealVoice` (`stealIndex` starts at 0
with `lowestLevel` at float max). -/
def stealIndex (vs : List Voice) : ℕ := (scanMinAux 0 (0, floatMax) vs).1

/-- Translation of `SamplePlayer::stealVoice`: resets the voice with the
lowest current envelope level. -/
def stealVoice (p : Player) : Player :=
  let k := stealIndex p.voices
  { p with voices := p.voices.set k (p.voices.getD k default).reset }

/-- Translation of `SamplePlayer::stopVoice`: in Polyphonic mode,
releases the envelope of every active voice playing the note; in the
other modes it does nothing. -/
def stopVoice (p : Player) (midiNoteNumber : ℤ) : Player :=
  if p.playbackMode = PlaybackMode.Polyphonic then
    { p with voices := p.voices.map (fun v =>
        if v.isActive = true ∧ v.midiNote = midiNoteNumber then
          { v with envelope := v.envelope.noteOff }
        else v) }
  else p

/-- Translation of `SamplePlayer::updateGrains` on the voice at index
`vi` (the C++ function takes a reference into the `voices` array, and
its call to `stopVoice` reads the whole array). -/
def updateGrains (ctx : MathCtx) (p : Player) (vi : ℕ) : Player :=
  let v := p.voices.getD vi default
  let grains1 := v.grains.filter (fun g => g.isActive)
  let needNew :=
    match grains1.getLast? with
    | none => true
    | some g => decide (v.grainOverlap ≤ g.phase)
  let grains2 :=
    if needNew then
      let gl := v.grainDuration * p.currentSampleRate
      grains1 ++ [{ startPosition := v.position, currentPosition := v.position,
                    grainLength := gl, isActive := true,
                    initialPhase := ctx.fmodTwoPi v.position,
                    phaseIncrement := 2 * ctx.pi * v.pitchRatio / gl }]
    else grains1
  let v1 := { v with grains := grains2 }
  let p1 := { p with voices := p.voices.set vi v1 }
  if p1.isHoldMode = true then p1
  else
    let v2 := { v1 with position := v1.position + v1.pitchRatio * p1.playbackSpeed }
    let p2 := { p1 with voices := p1.voices.set vi v2 }
    if p2.isLooping = true ∧ (numSamples p2 : ℚ) ≤ v2.position then
      { p2 with voices := p2.voices.set vi { v2 with position := 0 } }
    else if p2.isLooping = false ∧ (numSamples p2 : ℚ) ≤ v2.position then
      stopVoice p2 v2.midiNote
    else p2

/-- Voice-acquisition scan of `SamplePlayer::startVoice`: free voice
first; if none and the mode is OneShot, the first voice whose envelope
is Idle; failing that, steal the quietest voice and rescan.  Returns the
claimed index and the (possibly stolen-from) player, or none when
`voiceIndex` stays `-1`. -/
def chooseVoice (p : Player) : Option (ℕ × Player) :=
  match findFreeVoice p with
  | some i => some (i, p)
  | none =>
      let idleIdx :=
        if p.playbackMode = PlaybackMode.OneShot then
          p.voices.findIdx? (fun v => v.envelope.state = EnvState.Idle)
        else none
      match idleIdx with
      | some i => some (i, p)
      | none =>
          let p1 := stealVoice p
          match findFreeVoice p1 with
          | some i => some (i, p1)
          | none => none

/-- Translation of `SamplePlayer::startVoice`: claims a voice, resets
it, sets note, velocity, position (the hold position when hold mode is
active, else 0) and pitch ratio `pow(2, (note - 60) / 12)`; OneShot and
Monophonic modes override the envelope's sustain level and release time
before the envelope is retriggered. -/
def startVoice (ctx : MathCtx) (p : Player) (midiNoteNumber : ℤ) (velocity : ℚ) : Player :=
  match chooseVoice p with
  | none => p
  | some (vi, p1) =>
      let v := (p1.voices.getD vi default).reset
      let v := { v with isActive := true, midiNote := midiNoteNumber, velocity := velocity,
                        position := if p1.isHoldMode = true then p1.holdPosition else 0,
                        pitchRatio := ctx.pow2 (((midiNoteNumber : ℚ) - 60) / 12) }
      let v :=
        if p1.playbackMode = PlaybackMode.OneShot ∨ p1.playbackMode = PlaybackMode.Monophonic then
          { v with envelope := { v.envelope with sustainLevel := 1, releaseTime := 1/2 } }
        else v
      let v := { v with envelope := v.envelope.noteOn }
      { p1 with voices := p1.voices.set vi v }

/-- Translation of `SamplePlayer::setPlaybackSpeed` (stores the value as
given). -/
def setPlaybackSpeed (p : Player) (speed : ℚ) : Player :=
  { p with playbackSpeed := speed }

/-- Translation of `SamplePlayer::setLooping`. -/
def setLooping (p : Player) (shouldLoop : Bool) : Player :=
  { p with isLooping := shouldLoop }

/-- Translation of `SamplePlayer::setEnabled`. -/
def setEnabled (p : Player) (shouldBeEnabled : Bool) : Player :=
  { p with isEnabled := shouldBeEnabled }

/-- Translation of `SamplePlayer::setPlaybackMode`. -/
def setPlaybackMode (p : Player) (mode : PlaybackMode) : Player :=
  { p with playbackMode := mode }

/-- Translation of `SamplePlayer::setHoldMode`: stores the flag and, when
enabling, latches the first active voice's position as the hold
position. -/
def setHoldMode (p : Player) (shouldHold : Bool) : Player :=
  let p1 := { p with isHoldMode := shouldHold }
  if shouldHold = true then
    match p1.voices.find? (fun v => v.isActive) with
    | some v => { p1 with holdPosition := v.position }
    | none => p1
  else p1

/-- Translation of `SamplePlayer::setHoldPosition`: scales the normalized
argument by the buffer length (no clamping) and, when hold mode is
active, moves every active voice to the new hold position. -/
def setHoldPosition (p : Player) (normalizedPosition : ℚ) : Player :=
  if 0 < numSamples p then
    let hp := normalizedPosition * (numSamples p : ℚ)
    let p1 := { p with holdPosition := hp }
    if p1.isHoldMode = true then
      { p1 with voices := p1.voices.map (fun v =>
          if v.isActive = true then { v with position := hp } else v) }
    else p1
  else p

/-- Translation of `SamplePlayer::getHoldPosition`. -/
def getHoldPosition (p : Player) : ℚ :=
  if 0 < numSamples p then p.holdPosition / (numSamples p : ℚ) else 0

/-- Translation of `SamplePlayer::getCurrentPosition`: the first active
voice's position divided by the buffer length (1 when no sample is
loaded), or 0 when no voice is active. -/
def getCurrentPosition (p : Player) : ℚ :=
  match p.voices.find? (fun v => v.isActive) with
  | some v => v.position / (if 0 < numSamples p then (numSamples p : ℚ) else 1)
  | none => 0

/-- Translation of `SamplePlayer::getLengthInSeconds`. -/
def getLengthInSeconds (p : Player) : ℚ :=
  if 0 < numSamples p then (numSamples p : ℚ) / p.fileSampleRate else 0

/-- Translation of `SamplePlayer::isFileLoaded`. -/
def isFileLoaded (p : Player) : Bool := decide (0 < numSamples p)

/-- Runs the DC blocker over one channel in order, threading its state. -/
def dcRun : DCBlocker → List ℚ → DCBlocker × List ℚ
  | d, [] => (d, [])
  | d, x :: xs =>
      let r := d.process x
      let rest := dcRun r.1 xs
      (rest.1, r.2 :: rest.2)

/-- Runs the single `DCBlocker` of `SamplePlayer::loadFile` over the
channels in order (its state carries over from one channel into the
next, as in the C++ loop). -/
def dcChannels : DCBlocker → List (List ℚ) → DCBlocker × List (List ℚ)
  | d, [] => (d, [])
  | d, ch :: rest =>
      let r := dcRun d ch
      let rest1 := dcChannels r.1 rest
      (rest1.1, r.2 :: rest1.2)

/-- Value of `maxSample` in `SamplePlayer::loadFile`: the running maximum
of the absolute values of the DC-blocked samples, starting at 0. -/
def peak (chans : List (List ℚ)) : ℚ :=
  chans.foldl (fun m ch => ch.foldl (fun m' x => max m' |x|) m) 0

/-- Cubic fade gain of `SamplePlayer::applyFades`:
`g * g * (3 - 2 * g)` with `g = i / fadeLength`. -/
def smoothGain (i fl : ℕ) : ℚ :=
  let g : ℚ := (i : ℚ) / (fl : ℚ)
  g * g * (3 - 2 * g)

/-- Effect of the fade loop of `SamplePlayer::applyFades` on one channel
of length `n`: iteration `i < fl` multiplies `data[i]` and
`data[n - 1 - i]` by the cubic gain, so cell `j` collects the fade-in
factor when `j < fl` and the fade-out factor when `n - 1 - j < fl`. -/
def fadeChannel (n fl : ℕ) (data : List ℚ) : List ℚ :=
  data.mapIdx fun j x =>
    let x1 := if j < fl then smoothGain j fl * x else x
    if j < n ∧ n - 1 - j < fl then smoothGain (n - 1 - j) fl * x1 else x1

/-- Translation of `SamplePlayer::applyFades`: no-op on buffers shorter
than 100 samples, else fades of length `min 1000 (n / 10)` at both
ends of every channel. -/
def applyFades (chans : List (List ℚ)) : List (List ℚ) :=
  let n := (chans.headD []).length
  if n < 100 then chans
  else chans.map (fadeChannel n (min 1000 (n / 10)))

/-- Post-decode pipeline of `SamplePlayer::loadFile` on the decoded PCM
data: DC-block every channel with one shared blocker while computing the
peak, rescale so the peak becomes 0.95 (when the peak is positive), then
apply the edge fades. -/
def loadBuffer (decoded : List (List ℚ)) : List (List ℚ) :=
  let blocked := (dcChannels {} decoded).2
  let m := peak blocked
  let scaled :=
    if 0 < m then blocked.map (List.map (fun x => x * (19/20 / m)))
    else blocked
  applyFades scaled

/-- Effect of `juce::AudioBuffer::clear(startSample, numSamples)`: zeroes
the given range in every channel. -/
def clearRange (buf : List (List ℚ)) (start n : ℕ) : List (List ℚ) :=
  buf.map (fun ch => ch.mapIdx (fun j x => if start ≤ j ∧ j < start + n then 0 else x))

/-- Effect of `juce::AudioBuffer::clear()`: zeroes everything. -/
def clearBuf (buf : List (List ℚ)) : List (List ℚ) :=
  buf.map (List.map (fun _ => 0))

/-- Effect of `juce::AudioBuffer::addSample(channel, idx, value)` on one
channel (out-of-range writes are dropped, matching the pre-sized
buffer). -/
def addToChannel (ch : List ℚ) (idx : ℕ) (value : ℚ) : List ℚ :=
  ch.set idx (ch.getD idx 0 + value)

/-- Adds `value` at sample `idx` of every channel, as the inner
`addSample` loop of `SamplePlayer::processBlock` does on `tempBuffer`. -/
def addSampleAll (buf : List (List ℚ)) (idx : ℕ) (value : ℚ) : List (List ℚ) :=
  buf.map (fun ch => addToChannel ch idx value)

/-- Grain-accumulation body of the per-sample loop in
`SamplePlayer::processBlock`: one grain's contribution and mutation. -/
def grainStep (ctx : MathCtx) (file0 : List ℚ) (bufSize : ℕ) (pr speed overlap : ℚ)
    (acc : ℚ) (g : Grain) : ℚ × Grain :=
  if g.isActive = false then (acc, g)
  else
    let phase := g.age / g.grainLength
    let windowGain := grainWindowGain ctx phase overlap
    let interpolated := resample ctx file0 g.currentPosition bufSize
    let phaseAligned := interpolated * ctx.cosf (g.initialPhase + g.phaseIncrement * g.age)
    let acc1 := acc + phaseAligned * windowGain
    let newAge := g.age + 1
    (acc1, { g with phase := phase,
                    currentPosition := g.currentPosition + pr * speed,
                    age := newAge,
                    isActive := if g.grainLength ≤ newAge then false else g.isActive })

/-- Runs `grainStep` over a voice's grains in order. -/
def grainsStep (ctx : MathCtx) (file0 : List ℚ) (bufSize : ℕ) (pr speed overlap : ℚ) :
    ℚ → List Grain → ℚ × List Grain
  | acc, [] => (acc, [])
  | acc, g :: gs =>
      let r := grainStep ctx file0 bufSize pr speed overlap acc g
      let rest := grainsStep ctx file0 bufSize pr speed overlap r.1 gs
      (rest.1, r.2 :: rest.2)

/-- One iteration of the per-sample loop of `SamplePlayer::processBlock`
for the voice at index `vi`: grain accumulation, the per-voice DSP chain
(conditional anti-alias filter, DC blocker, soft clipper), envelope and
velocity scaling, mixing into `tempBuffer`, level metering, and the
trailing `updateGrains` call. -/
def voiceSampleStep (ctx : MathCtx) (acc : Player × ℚ) (vi sampleIdx : ℕ) : Player × ℚ :=
  let p := acc.1
  let v := p.voices.getD vi default
  let r := grainsStep ctx (p.fileBuffer.headD []) (numSamples p)
             v.pitchRatio p.playbackSpeed v.grainOverlap 0 v.grains
  let v := { v with grains := r.2 }
  let sv := r.1
  let vsv :=
    if 1 < v.pitchRatio then
      let cutoff := min 20000 (20000 / v.pitchRatio)
      let f := Butterworth.setCutoff ctx v.antiAliasFilter cutoff
      let fo := f.process sv
      ({ v with antiAliasFilter := fo.1 }, fo.2)
    else (v, sv)
  let v := vsv.1
  let dco := v.dcBlocker.process vsv.2
  let v := { v with dcBlocker := dco.1 }
  let sco := SoftClipper.process ctx v.softClipper dco.2
  let v := { v with softClipper := sco.1 }
  let eo := v.envelope.process
  let v := { v with envelope := eo.1 }
  let sv := sco.2 * eo.2 * v.velocity
  let p := { p with voices := p.voices.set vi v,
                    tempBuffer := addSampleAll p.tempBuffer sampleIdx sv }
  (updateGrains ctx p vi, max acc.2 |sv|)

/-- Per-voice loop of `SamplePlayer::processBlock`: inactive voices are
skipped; an active voice runs the per-sample loop over the block.  The
running `maxLevel` accumulates across voices. -/
def processVoices (ctx : MathCtx) (p : Player) (n : ℕ) : Player × ℚ :=
  (List.range p.voices.length).foldl
    (fun acc vi =>
      if (acc.1.voices.getD vi default).isActive = true then
        (List.range n).foldl (fun a si => voiceSampleStep ctx a vi si) acc
      else acc)
    (p, 0)

/-- Final output loop of `SamplePlayer::processBlock` on one output
channel: `out[start + s] = limiter.process(temp[s])`, threading the
limiter state. -/
def limitChannel (pl : PeakLimiter) (outCh tempCh : List ℚ) (start n : ℕ) :
    PeakLimiter × List ℚ :=
  (List.range n).foldl
    (fun (acc : PeakLimiter × List ℚ) s =>
      let r := acc.1.process (tempCh.getD s 0)
      (r.1, acc.2.set (start + s) r.2))
    (pl, outCh)

/-- Final output loop of `SamplePlayer::processBlock` over the output
channels, pairing output channel `c` with `tempBuffer` channel `c`. -/
def limitChannels : PeakLimiter → List (List ℚ) → List (List ℚ) → ℕ → ℕ →
    PeakLimiter × List (List ℚ)
  | pl, [], _, _, _ => (pl, [])
  | pl, ch :: rest, temps, start, n =>
      let r := limitChannel pl ch (temps.headD []) start n
      let rest1 := limitChannels r.1 rest temps.tail start n
      (rest1.1, r.2 :: rest1.2)

/-- Translation of `SamplePlayer::processBlock`.  When no sample is
loaded or the engine is disabled the C++ function returns at once,
leaving both the output buffer and all voices untouched; otherwise it
clears the target range, mixes the voices into the cleared `tempBuffer`,
limits into the output, and stores the block's running maximum level. -/
def processBlock (ctx : MathCtx) (p : Player) (buffer : List (List ℚ))
    (startSample numSamplesArg : ℕ) : Player × List (List ℚ) :=
  if numSamples p = 0 ∨ p.isEnabled = false then (p, buffer)
  else
    let buffer := clearRange buffer startSample numSamplesArg
    let p := { p with tempBuffer := clearBuf p.tempBuffer }
    let r := processVoices ctx p numSamplesArg
    let p := r.1
    let lo := limitChannels p.outputLimiter buffer p.tempBuffer startSample numSamplesArg
    ({ p with outputLimiter := lo.1, currentLevel := r.2 }, lo.2)

/-- Translation of `SamplePlayer::stopAllVoices`: every active voice gets
a fast release, cleared grains and a reset, then one 512-sample block is
processed into a local scratch buffer. -/
def stopAllVoices (ctx : MathCtx) (p : Player) : Player :=
  let p1 := { p with voices := p.voices.map (fun v =>
      if v.isActive = true then
        ({ v with envelope := Envelope.noteOff { v.envelope with releaseTime := 1/50 },
                  grains := [] }).reset
      else v) }
  (processBlock ctx p1 (List.replicate 2 (List.replicate 512 0)) 0 512).1

/-- Note-on branch of `SamplePlayer::handleMidiMessage` (which first
bails out when no sample is loaded): Polyphonic and OneShot start a
voice directly; Monophonic stops every voice first. -/
def handleNoteOn (ctx : MathCtx) (p : Player) (note : ℤ) (velocity : ℚ) : Player :=
  if numSamples p = 0 then p
  else
    match p.playbackMode with
    | .Polyphonic => startVoice ctx p note velocity
    | .Monophonic => startVoice ctx (stopAllVoices ctx p) note velocity
    | .OneShot => startVoice ctx p note velocity

/-- Note-off branch of `SamplePlayer::handleMidiMessage`: only the
Polyphonic mode routes the note-off to `stopVoice`. -/
def handleNoteOff (p : Player) (note : ℤ) : Player :=
  if numSamples p = 0 then p
  else if p.playbackMode = PlaybackMode.Polyphonic then stopVoice p note
  else p

/-- One call made by a client of the envelope state machine. -/
inductive EnvOp where
  | noteOn
  | noteOff
  | process
deriving DecidableEq, Repr

/-- Applies one client call to an envelope, dropping the level returned
by `process`. -/
def envStep (e : Envelope) : EnvOp → Envelope
  | .noteOn => e.noteOn
  | .noteOff => e.noteOff
  | .process => (e.process).1

/-- Runs a sequence of interleaved calls and collects the level returned
by every `process` call, in order. -/
def envOutputs (e : Envelope) : List EnvOp → List ℚ
  | [] => []
  | .process :: ops => (e.process).2 :: envOutputs (e.process).1 ops
  | op :: ops => envOutputs (envStep e op) ops

/-- Well-formed envelope parameters: positive attack, decay and release
times, sustain level within `[0, 1]`, and a positive sample rate. -/
def goodEnvParams (e : Envelope) : Prop :=
  0 < e.attackTime ∧ 0 < e.decayTime ∧ 0 < e.releaseTime ∧
  0 ≤ e.sustainLevel ∧ e.sustainLevel ≤ 1 ∧ 0 < e.sampleRate

/-! Concrete instances used by counterexamples and witnesses. -/

/-- Stub math context for concrete runs: every transcendental call is a
fixed cheap function.  Note `pow2` agrees with the real `pow(2, x)` at
`x = 0` (both give 1), the only argument used by the runs below. -/
def ctxStub : MathCtx :=
  { pow2 := fun _ => 1, fmodTwoPi := fun _ => 0, pi := 3,
    sinf := fun _ => 0, cosf := fun _ => 1, tanhf := fun x => x, expf := fun _ => 1 }

/-- Player with no sample loaded (all other fields at their C++
defaults). -/
def emptyPlayer : Player := {}

/-- Active voice at position 8 with pitch ratio 4, one live grain, and a
sustaining envelope. -/
def voiceAtEight : Voice :=
  { isActive := true, position := 8, pitchRatio := 4, midiNote := 60,
    grains := [{ isActive := true, phase := 0, grainLength := 100 }],
    envelope := { state := EnvState.Sustain, currentLevel := 7/10 } }

/-- Looping player holding `voiceAtEight` and a 10-sample buffer: the
next per-sample update overruns the buffer end (8 + 4 · 1 = 12 ≥ 10). -/
def loopingPlayer : Player :=
  { voices := voiceAtEight :: List.replicate 15 {},
    fileBuffer := [List.replicate 10 0], isLooping := true }

/-- Same overrun scenario with looping disabled, in OneShot mode. -/
def oneShotPlayer : Player :=
  { loopingPlayer with isLooping := false, playbackMode := PlaybackMode.OneShot }

/-- Same overrun scenario with looping disabled, in Polyphonic mode. -/
def polyOverrunPlayer : Player :=
  { loopingPlayer with isLooping := false, playbackMode := PlaybackMode.Polyphonic }

/-- Envelope caught mid-release at level 1/2 (attack time 1 s, sample
rate 10 Hz). -/
def releasingEnv : Envelope :=
  { state := EnvState.Release, currentLevel := 1/2, attackTime := 1, sampleRate := 10 }

/-- Player with a two-sample buffer loaded. -/
def twoSamplePlayer : Player := { fileBuffer := [[0, 0]] }

/-- Hold-mode player with hold position 5, an active voice and a
two-sample buffer. -/
def holdPlayer : Player :=
  { voices := { isActive := true, position := 3, midiNote := 60 } :: List.replicate 15 ({} : Voice),
    fileBuffer := [[0, 0]], isHoldMode := true, holdPosition := 5 }

/-- Builds an active voice with the given envelope level, envelope state
and note, for the voice-pool scenarios. -/
def mkActiveVoice (lvl : ℚ) (st : EnvState) (note : ℤ) : Voice :=
  { isActive := true, midiNote := note,
    envelope := { state := st, currentLevel := lvl } }

/-- Fourteen active sustaining voices with pairwise distinct levels
`2/100 .. 15/100` and notes `12 .. 25`. -/
def fourteenVoices : List Voice :=
  [mkActiveVoice (2/100) EnvState.Sustain 12, mkActiveVoice (3/100) EnvState.Sustain 13,
   mkActiveVoice (4/100) EnvState.Sustain 14, mkActiveVoice (5/100) EnvState.Sustain 15,
   mkActiveVoice (6/100) EnvState.Sustain 16, mkActiveVoice (7/100) EnvState.Sustain 17,
   mkActiveVoice (8/100) EnvState.Sustain 18, mkActiveVoice (9/100) EnvState.Sustain 19,
   mkActiveVoice (10/100) EnvState.Sustain 20, mkActiveVoice (11/100) EnvState.Sustain 21,
   mkActiveVoice (12/100) EnvState.Sustain 22, mkActiveVoice (13/100) EnvState.Sustain 23,
   mkActiveVoice (14/100) EnvState.Sustain 24, mkActiveVoice (15/100) EnvState.Sustain 25]

/-- Full 16-voice pool, all active with pairwise distinct envelope
levels; voice 0 has an Idle envelope at the (stale) level 1, voice 1 has
the lowest level 0. -/
def fullPoolIdle : Player :=
  { voices := [mkActiveVoice 1 EnvState.Idle 10, mkActiveVoice 0 EnvState.Sustain 11] ++
      fourteenVoices,
    fileBuffer := [[0, 0]], playbackMode := PlaybackMode.OneShot }

/-- The same full pool in Polyphonic mode. -/
def fullPoolPoly : Player := { fullPoolIdle with playbackMode := PlaybackMode.Polyphonic }

/-- Player whose buffer is the loaded form of a decoded two-sample file. -/
def loadedTwoSample : Player := { fileBuffer := loadBuffer [[1, 0]] }

/-- The loaded player after a note-on for note 60 (pitch ratio
`pow(2, 0) = 1`). -/
def afterNoteOn : Player := handleNoteOn ctxStub loadedTwoSample 60 (1/2)

/-- The playing engine after three per-sample position updates with
looping disabled: the voice overruns the two-sample buffer and keeps
advancing (position 3). -/
def afterThreeSamples : Player :=
  updateGrains ctxStub (updateGrains ctxStub (updateGrains ctxStub afterNoteOn 0) 0) 0

/-- Player with one active voice halfway through a two-sample buffer. -/
def halfwayPlayer : Player :=
  { voices := { isActive := true, position := 1 } :: List.replicate 15 ({} : Voice),
    fileBuffer := [[0, 0]] }

/-! Claim C1. -/

/-- C1, corrected: when no sample is loaded or the engine is disabled,
`SamplePlayer::processBlock` returns before touching anything, so the
output buffer's target range is left unmodified (silent only if the
caller had already cleared it) and no voice state changes; the claim's
assertion that the range is cleared to zeros does not hold. -/
theorem C1_processBlock_bypass_leaves_state (ctx : MathCtx) (p : Player)
    (buffer : List (List ℚ)) (startSample numSamplesArg : ℕ)
    (h : numSamples p = 0 ∨ p.isEnabled = false) :
    processBlock ctx p buffer startSample numSamplesArg = (p, buffer) := by
  unfold processBlock
  rw [if_pos h]

/-- C1 witness: a player with no sample, on a buffer holding the sample
value 1, is returned unchanged together with the untouched buffer. -/
theorem C1_processBlock_bypass_witness :
    (numSamples emptyPlayer = 0 ∨ emptyPlayer.isEnabled = false) ∧
    processBlock ctxStub emptyPlayer [[1]] 0 1 = (emptyPlayer, [[1]]) :=
  ⟨Or.inl (by simp [emptyPlayer, numSamples]),
   C1_processBlock_bypass_leaves_state ctxStub emptyPlayer [[1]] 0 1
     (Or.inl (by simp [emptyPlayer, numSamples]))⟩

/-- C1 counterexample: with no sample loaded, a call on a buffer holding
the nonzero sample 1 leaves that sample in the target range
`[0, 1)`, so the range does not contain only zeros after the call. -/
theorem C1_block_not_cleared :
    (processBlock ctxStub emptyPlayer [[1]] 0 1).2 = [[1]] ∧
    ((processBlock ctxStub emptyPlayer [[1]] 0 1).2.getD 0 []).getD 0 0 ≠ 0 := by
  norm_num +decide [processBlock, emptyPlayer, numSamples]

/-! Claim C4. -/

/-- C4, code bug: `Envelope::noteOn` does force the state to Attack, but
its retrigger-resume branch tests `state == State::Release` only after
`state` has already been overwritten with `Attack`, so the branch is
dead: `currentTime` is always reset to 0.  Retriggering the concrete
envelope `releasingEnv` (Release at level 1/2) therefore makes the next
`process()` return 1/10, a downward level discontinuity from 1/2 —
contradicting the claimed resume-from-L behaviour that the dead branch
was written to provide. -/
theorem C4_noteOn_drops_release_level :
    (releasingEnv.noteOn).state = EnvState.Attack ∧
    (releasingEnv.noteOn).currentTime = 0 ∧
    (releasingEnv.noteOn).currentLevel = 1/2 ∧
    ((releasingEnv.noteOn).process).2 = 1/10 ∧
    ¬ ((1 : ℚ)/2 ≤ 1/10) := by
  norm_num +decide [releasingEnv, Envelope.noteOn, Envelope.process]

/-! Claim C5. -/

/-- C5 counterexample: `setPlaybackSpeed 10` stores 10, outside the
documented domain `(0.1, 4.0]`, and `setHoldPosition 2` stores twice the
buffer length (normalized stored position 2, outside `[0, 1]`): neither
setter clamps. -/
theorem C5_setters_do_not_clamp :
    (setPlaybackSpeed emptyPlayer 10).playbackSpeed = 10 ∧
    ¬ ((10 : ℚ) ≤ 4) ∧
    (setHoldPosition twoSamplePlayer 2).holdPosition = 4 ∧
    getHoldPosition (setHoldPosition twoSamplePlayer 2) = 2 ∧
    ¬ ((2 : ℚ) ≤ 1) := by
  norm_num +decide [setPlaybackSpeed, setHoldPosition, getHoldPosition, emptyPlayer,
    twoSamplePlayer, numSamples]

/-- C5, corrected: both setters store their argument unmodified —
`setPlaybackSpeed` keeps the raw multiplier and `setHoldPosition` stores
`normalized * bufferLength` (so reading the hold position back returns
the raw normalized value, clamped nowhere). -/
theorem C5_setters_store_raw (p : Player) (x y : ℚ) (h : 0 < numSamples p) :
    (setPlaybackSpeed p x).playbackSpeed = x ∧
    (setHoldPosition p y).holdPosition = y * (numSamples p : ℚ) ∧
    getHoldPosition (setHoldPosition p y) = y := by
  have hn : numSamples (setHoldPosition p y) = numSamples p ∧
      (setHoldPosition p y).holdPosition = y * (numSamples p : ℚ) := by
    unfold setHoldPosition
    rw [if_pos h]
    by_cases hm : p.isHoldMode = true <;> simp [hm, numSamples]
  have hq : (numSamples p : ℚ) ≠ 0 := Nat.cast_ne_zero.mpr h.ne'
  refine ⟨rfl, hn.2, ?_⟩
  unfold getHoldPosition
  rw [hn.1, if_pos h, hn.2]
  field_simp

/-- C5 witness: on the two-sample player with normalized position 2 and
speed 10, the stored values are exactly 10 and 4, and the read-back
normalized hold position is 2. -/
theorem C5_setters_store_raw_witness :
    0 < numSamples twoSamplePlayer ∧
    ((setPlaybackSpeed twoSamplePlayer 10).playbackSpeed = 10 ∧
     (setHoldPosition twoSamplePlayer 2).holdPosition = 2 * (numSamples twoSamplePlayer : ℚ) ∧
     getHoldPosition (setHoldPosition twoSamplePlayer 2) = 2) :=
  ⟨by simp [twoSamplePlayer, numSamples],
   C5_setters_store_raw twoSamplePlayer 10 2 (by simp [twoSamplePlayer, numSamples])⟩

/-! Claim C2. -/

/-- C2 counterexample: a looping voice at position 8 with per-sample
increment 4 in a 10-sample buffer overruns to 12; the update sets the
position to 0, not to `position - length = 2` as the claim states. -/
theorem C2_wrap_goes_to_zero :
    ((updateGrains ctxStub loopingPlayer 0).voices.getD 0 default).position = 0 ∧
    ((8 : ℚ) + 4 * 1) - 10 ≠ 0 := by
  norm_num +decide [updateGrains, loopingPlayer, voiceAtEight, ctxStub, numSamples, stopVoice]

/-- C2, corrected: with looping enabled and hold mode inactive, a voice
whose advanced position reaches or exceeds the buffer length has its
position reset to 0 (not wrapped to `position - length`, and not
clamped). -/
theorem C2_loop_resets_position (ctx : MathCtx) (p : Player) (vi : ℕ)
    (hvi : vi < p.voices.length)
    (hl : p.isLooping = true) (hh : p.isHoldMode = false)
    (hover : (numSamples p : ℚ) ≤ (p.voices.getD vi default).position +
      (p.voices.getD vi default).pitchRatio * p.playbackSpeed) :
    ((updateGrains ctx p vi).voices.getD vi default).position = 0 := by
  unfold updateGrains
  simp only [hh, hl, Bool.false_eq_true, if_false, true_and]
  split
  · split
    · simp [List.getD_eq_getElem?_getD, List.getElem?_set_self, List.set_set, hvi]
    · exact absurd hover (by assumption)
  · split
    · simp [List.getD_eq_getElem?_getD, List.getElem?_set_self, List.set_set, hvi]
    · exact absurd hover (by assumption)

/-- C2 witness: the concrete looping overrun (8 + 4 ≥ 10) ends with the
voice position back at 0. -/
theorem C2_loop_resets_position_witness :
    (0 < loopingPlayer.voices.length ∧ loopingPlayer.isLooping = true ∧
      loopingPlayer.isHoldMode = false ∧
      (numSamples loopingPlayer : ℚ) ≤ (loopingPlayer.voices.getD 0 default).position +
        (loopingPlayer.voices.getD 0 default).pitchRatio * loopingPlayer.playbackSpeed) ∧
    ((updateGrains ctxStub loopingPlayer 0).voices.getD 0 default).position = 0 :=
  ⟨⟨by norm_num [loopingPlayer], by norm_num [loopingPlayer],
    by norm_num [loopingPlayer],
    by norm_num [loopingPlayer, voiceAtEight, numSamples]⟩,
   C2_loop_resets_position ctxStub loopingPlayer 0
     (by norm_num [loopingPlayer]) (by norm_num [loopingPlayer])
     (by norm_num [loopingPlayer])
     (by norm_num [loopingPlayer, voiceAtEight, numSamples])⟩

/-! Claim C3. -/

/-- C3 counterexample: in OneShot mode, a non-looping voice overrunning
the buffer end (8 + 4 ≥ 10) is not deactivated: it stays active at
position 12, its envelope stays in Sustain (not forced to Release), and
its grain collection is not cleared. -/
theorem C3_oneShot_overrun_keeps_playing :
    ((updateGrains ctxStub oneShotPlayer 0).voices.getD 0 default).isActive = true ∧
    ((updateGrains ctxStub oneShotPlayer 0).voices.getD 0 default).position = 12 ∧
    ((updateGrains ctxStub oneShotPlayer 0).voices.getD 0 default).envelope.state =
      EnvState.Sustain ∧
    ((updateGrains ctxStub oneShotPlayer 0).voices.getD 0 default).grains ≠ [] := by
  norm_num +decide [updateGrains, oneShotPlayer, loopingPlayer, voiceAtEight, ctxStub,
    numSamples, stopVoice]

/-- C3, corrected: when looping is disabled and an active voice's
advanced position reaches or exceeds the buffer length, the voice is not
deactivated: it stays active with its position past the end and its
grains intact; only in Polyphonic mode is its envelope sent to Release
(via `stopVoice` / `noteOff`), while Monophonic and OneShot modes leave
the envelope untouched. -/
theorem C3_overrun_releases_only_in_poly (ctx : MathCtx) (p : Player) (vi : ℕ)
    (hvi : vi < p.voices.length)
    (hl : p.isLooping = false) (hh : p.isHoldMode = false)
    (ha : (p.voices.getD vi default).isActive = true)
    (hover : (numSamples p : ℚ) ≤ (p.voices.getD vi default).position +
      (p.voices.getD vi default).pitchRatio * p.playbackSpeed) :
    ((updateGrains ctx p vi).voices.getD vi default).isActive = true ∧
    ((updateGrains ctx p vi).voices.getD vi default).position =
      (p.voices.getD vi default).position +
        (p.voices.getD vi default).pitchRatio * p.playbackSpeed ∧
    ((updateGrains ctx p vi).voices.getD vi default).grains ≠ [] ∧
    (p.playbackMode = PlaybackMode.Polyphonic →
      ((updateGrains ctx p vi).voices.getD vi default).envelope =
        (p.voices.getD vi default).envelope.noteOff) ∧
    (p.playbackMode ≠ PlaybackMode.Polyphonic →
      ((updateGrains ctx p vi).voices.getD vi default).envelope =
        (p.voices.getD vi default).envelope) := by
  unfold updateGrains
  simp only [hh, hl, Bool.false_eq_true, Bool.true_eq_false, if_false, false_and, true_and]
  have hD : p.voices.getD vi default = p.voices[vi] :=
    List.getD_eq_getElem p.voices default hvi
  have ha' : (p.voices[vi]).isActive = true := hD ▸ ha
  split
  · split
    · unfold stopVoice
      by_cases hm : p.playbackMode = PlaybackMode.Polyphonic
      · rw [if_pos hm]
        simp [hD, List.getD_eq_getElem?_getD, List.getElem?_map, List.getElem?_set_self,
          List.set_set, hvi, hm, ha']
      · rw [if_neg hm]
        simp [hD, List.getD_eq_getElem?_getD, List.getElem?_set_self, List.set_set, hvi,
          hm, ha']
    · exact absurd hover (by assumption)
  · next hmatch =>
      split
      · unfold stopVoice
        have hne : List.filter (fun g => g.isActive)
            (p.voices.getD vi default).grains ≠ [] := by
          intro hnil
          rw [hnil] at hmatch
          simp at hmatch
        have hne' : List.filter (fun g => g.isActive) (p.voices[vi]).grains ≠ [] :=
          hD ▸ hne
        by_cases hm : p.playbackMode = PlaybackMode.Polyphonic
        · rw [if_pos hm]
          simp [hD, List.getD_eq_getElem?_getD, List.getElem?_map, List.getElem?_set_self,
            List.set_set, hvi, hm, ha', hne']
        · rw [if_neg hm]
          simp [hD, List.getD_eq_getElem?_getD, List.getElem?_set_self, List.set_set, hvi,
            hm, ha', hne']
      · exact absurd hover (by assumption)

/-- C3 witness: the concrete Polyphonic overrun keeps the voice active
at position 12 with grains intact, and its envelope moves from Sustain
to the state `noteOff` produces (Release). -/
theorem C3_overrun_releases_only_in_poly_witness :
    (0 < polyOverrunPlayer.voices.length ∧
      polyOverrunPlayer.isLooping = false ∧ polyOverrunPlayer.isHoldMode = false ∧
      (polyOverrunPlayer.voices.getD 0 default).isActive = true ∧
      (numSamples polyOverrunPlayer : ℚ) ≤
        (polyOverrunPlayer.voices.getD 0 default).position +
          (polyOverrunPlayer.voices.getD 0 default).pitchRatio *
            polyOverrunPlayer.playbackSpeed) ∧
    (((updateGrains ctxStub polyOverrunPlayer 0).voices.getD 0 default).isActive = true ∧
     ((updateGrains ctxStub polyOverrunPlayer 0).voices.getD 0 default).position =
       (polyOverrunPlayer.voices.getD 0 default).position +
         (polyOverrunPlayer.voices.getD 0 default).pitchRatio *
           polyOverrunPlayer.playbackSpeed ∧
     ((updateGrains ctxStub polyOverrunPlayer 0).voices.getD 0 default).grains ≠ [] ∧
     (polyOverrunPlayer.playbackMode = PlaybackMode.Polyphonic →
       ((updateGrains ctxStub polyOverrunPlayer 0).voices.getD 0 default).envelope =
         (polyOverrunPlayer.voices.getD 0 default).envelope.noteOff) ∧
     (polyOverrunPlayer.playbackMode ≠ PlaybackMode.Polyphonic →
       ((updateGrains ctxStub polyOverrunPlayer 0).voices.getD 0 default).envelope =
         (polyOverrunPlayer.voices.getD 0 default).envelope)) :=
  ⟨⟨by norm_num [polyOverrunPlayer, loopingPlayer],
    by norm_num [polyOverrunPlayer, loopingPlayer],
    by norm_num [polyOverrunPlayer, loopingPlayer],
    by norm_num [polyOverrunPlayer, loopingPlayer, voiceAtEight],
    by norm_num [polyOverrunPlayer, loopingPlayer, voiceAtEight, numSamples]⟩,
   C3_overrun_releases_only_in_poly ctxStub polyOverrunPlayer 0
     (by norm_num [polyOverrunPlayer, loopingPlayer])
     (by norm_num [polyOverrunPlayer, loopingPlayer])
     (by norm_num [polyOverrunPlayer, loopingPlayer])
     (by norm_num [polyOverrunPlayer, loopingPlayer, voiceAtEight])
     (by norm_num [polyOverrunPlayer, loopingPlayer, voiceAtEight, numSamples])⟩

/-! Claim C7. -/

/-- One `Envelope::process` call from a state with well-formed
parameters and a nonnegative stage clock returns a level in `[0, 1]`
and preserves both invariants. -/
theorem envProcess_level_mem (e : Envelope) (h : goodEnvParams e)
    (hct : 0 ≤ e.currentTime) :
    0 ≤ (e.process).2 ∧ (e.process).2 ≤ 1 ∧
    goodEnvParams (e.process).1 ∧ 0 ≤ (e.process).1.currentTime := by
  obtain ⟨ha, hd, hr, hs0, hs1, hsr⟩ := h
  have hti : 0 < 1 / e.sampleRate := by positivity
  have ht : 0 < e.currentTime + 1 / e.sampleRate := by linarith
  unfold Envelope.process
  cases hst : e.state
  · exact ⟨le_rfl, by norm_num, ⟨ha, hd, hr, hs0, hs1, hsr⟩, hct⟩
  · simp only []
    split
    · exact ⟨by norm_num, le_rfl, ⟨ha, hd, hr, hs0, hs1, hsr⟩, le_rfl⟩
    · next hlt =>
        have hl : 0 < (e.currentTime + 1 / e.sampleRate) / e.attackTime := div_pos ht ha
        exact ⟨hl.le, le_of_not_le hlt, ⟨ha, hd, hr, hs0, hs1, hsr⟩, ht.le⟩
  · simp only []
    split
    · exact ⟨hs0, hs1, ⟨ha, hd, hr, hs0, hs1, hsr⟩, ht.le⟩
    · next hgt =>
        have hl1 : 1 - (1 - e.sustainLevel) * ((e.currentTime + 1 / e.sampleRate) / e.decayTime) ≤ 1 := by
          have : 0 ≤ (1 - e.sustainLevel) * ((e.currentTime + 1 / e.sampleRate) / e.decayTime) :=
            mul_nonneg (by linarith) (div_nonneg ht.le hd.le)
          linarith
        have hl0 : 0 ≤ 1 - (1 - e.sustainLevel) * ((e.currentTime + 1 / e.sampleRate) / e.decayTime) :=
          le_trans hs0 (le_of_not_le hgt)
        exact ⟨hl0, hl1, ⟨ha, hd, hr, hs0, hs1, hsr⟩, ht.le⟩
  · exact ⟨hs0, hs1, ⟨ha, hd, hr, hs0, hs1, hsr⟩, hct⟩
  · simp only []
    split
    · exact ⟨le_rfl, by norm_num, ⟨ha, hd, hr, hs0, hs1, hsr⟩, ht.le⟩
    · next hgt =>
        have hq : 0 ≤ e.sustainLevel * ((e.currentTime + 1 / e.sampleRate) / e.releaseTime) :=
          mul_nonneg hs0 (div_nonneg ht.le hr.le)
        have hl1 : e.sustainLevel * (1 - (e.currentTime + 1 / e.sampleRate) / e.releaseTime) ≤ 1 := by
          nlinarith
        have hl0 : 0 ≤ e.sustainLevel * (1 - (e.currentTime + 1 / e.sampleRate) / e.releaseTime) := by
          have := le_of_not_le hgt
          linarith
        exact ⟨hl0, hl1, ⟨ha, hd, hr, hs0, hs1, hsr⟩, ht.le⟩

/-- The envelope client calls preserve well-formed parameters and the
nonnegative stage clock. -/
theorem envStep_preserves (e : Envelope) (op : EnvOp) (h : goodEnvParams e)
    (hct : 0 ≤ e.currentTime) :
    goodEnvParams (envStep e op) ∧ 0 ≤ (envStep e op).currentTime := by
  obtain ⟨ha, hd, hr, hs0, hs1, hsr⟩ := h
  cases op with
  | noteOn =>
      simp [envStep, Envelope.noteOn]
      exact ⟨ha, hd, hr, hs0, hs1, hsr⟩
  | noteOff =>
      unfold envStep Envelope.noteOff
      by_cases hi : e.state ≠ EnvState.Idle
      · rw [if_pos hi]
        exact ⟨⟨ha, hd, hr, hs0, hs1, hsr⟩, le_rfl⟩
      · rw [if_neg hi]
        exact ⟨⟨ha, hd, hr, hs0, hs1, hsr⟩, hct⟩
  | process =>
      have := envProcess_level_mem e ⟨ha, hd, hr, hs0, hs1, hsr⟩ hct
      exact ⟨this.2.2.1, this.2.2.2⟩

/-- C7, confirmed: for every finite sequence of interleaved `noteOn`,
`noteOff` and `process` calls on an envelope starting from the initial
Idle state, with positive attack, decay and release time constants,
sustain level in `[0, 1]` and a positive sample rate, every level that
`process` returns lies in `[0, 1]`. -/
theorem C7_envelope_level_in_unit (a d s r sr : ℚ) (ops : List EnvOp)
    (ha : 0 < a) (hd : 0 < d) (hr : 0 < r) (hs0 : 0 ≤ s) (hs1 : s ≤ 1) (hsr : 0 < sr) :
    ∀ x ∈ envOutputs
        { attackTime := a, decayTime := d, sustainLevel := s, releaseTime := r,
          sampleRate := sr }
        ops, 0 ≤ x ∧ x ≤ 1 := by
  have key : ∀ (l : List EnvOp) (e : Envelope), goodEnvParams e → 0 ≤ e.currentTime →
      ∀ x ∈ envOutputs e l, 0 ≤ x ∧ x ≤ 1 := by
    intro l
    induction l with
    | nil => intro e _ _ x hx; simp [envOutputs] at hx
    | cons op rest ih =>
        intro e he hct x hx
        cases op with
        | noteOn =>
            have hstep := envStep_preserves e EnvOp.noteOn he hct
            exact ih (envStep e EnvOp.noteOn) hstep.1 hstep.2 x (by simpa [envOutputs] using hx)
        | noteOff =>
            have hstep := envStep_preserves e EnvOp.noteOff he hct
            exact ih (envStep e EnvOp.noteOff) hstep.1 hstep.2 x (by simpa [envOutputs] using hx)
        | process =>
            have hp := envProcess_level_mem e he hct
            rw [show envOutputs e (EnvOp.process :: rest) =
                (e.process).2 :: envOutputs (e.process).1 rest from rfl] at hx
            rcases List.mem_cons.mp hx with hx1 | hx2
            · exact hx1 ▸ ⟨hp.1, hp.2.1⟩
            · exact ih (e.process).1 hp.2.2.1 hp.2.2.2 x hx2
  exact key ops _ ⟨ha, hd, hr, hs0, hs1, hsr⟩ le_rfl

/-- C7 witness: a concrete retrigger run (attack 1/100 s, decay 1/10 s,
sustain 7/10, release 1/5 s at 100 Hz) over note-on, two processes, a
note-off and a final process produces only levels in `[0, 1]`. -/
theorem C7_envelope_level_in_unit_witness :
    (0 < (1 : ℚ)/100 ∧ 0 < (1 : ℚ)/10 ∧ 0 < (1 : ℚ)/5 ∧ 0 ≤ (7 : ℚ)/10 ∧
      (7 : ℚ)/10 ≤ 1 ∧ 0 < (100 : ℚ)) ∧
    ∀ x ∈ envOutputs
        { attackTime := 1/100, decayTime := 1/10, sustainLevel := 7/10,
          releaseTime := 1/5, sampleRate := 100 }
        [EnvOp.noteOn, EnvOp.process, EnvOp.process, EnvOp.noteOff, EnvOp.process],
      0 ≤ x ∧ x ≤ 1 :=
  ⟨⟨by norm_num, by norm_num, by norm_num, by norm_num, by norm_num, by norm_num⟩,
   C7_envelope_level_in_unit (1/100) (1/10) (7/10) (1/5) 100
     [EnvOp.noteOn, EnvOp.process, EnvOp.process, EnvOp.noteOff, EnvOp.process]
     (by norm_num) (by norm_num) (by norm_num) (by norm_num) (by norm_num) (by norm_num)⟩

/-! Claim C6. -/

/-- The running-maximum fold over one channel never drops below its
starting value. -/
theorem foldAbs_ge_init (l : List ℚ) (m : ℚ) :
    m ≤ l.foldl (fun a y => max a |y|) m := by
  induction l generalizing m with
  | nil => exact le_rfl
  | cons y ys ih => exact le_trans (le_max_left m |y|) (ih _)

/-- The running-maximum fold over one channel dominates the absolute
value of every sample it visits. -/
theorem foldAbs_ge_mem (l : List ℚ) (m : ℚ) :
    ∀ x ∈ l, |x| ≤ l.foldl (fun a y => max a |y|) m := by
  induction l generalizing m with
  | nil => intro x hx; simp at hx
  | cons y ys ih =>
      intro x hx
      rcases List.mem_cons.mp hx with rfl | hx2
      · exact le_trans (le_max_right m |x|) (foldAbs_ge_init ys _)
      · exact ih _ x hx2

/-- The running-maximum fold over one channel stays below any bound
dominating its start and all visited samples. -/
theorem foldAbs_le (l : List ℚ) (m c : ℚ) (hm : m ≤ c)
    (h : ∀ x ∈ l, |x| ≤ c) : l.foldl (fun a y => max a |y|) m ≤ c := by
  induction l generalizing m with
  | nil => exact hm
  | cons y ys ih =>
      exact ih _ (max_le hm (h y (List.mem_cons_self _ _)))
        (fun z hz => h z (List.mem_cons_of_mem _ hz))

/-- The `loadFile` peak fold never drops below its starting value. -/
theorem peakFold_ge_init (chans : List (List ℚ)) (m : ℚ) :
    m ≤ chans.foldl (fun m2 ch => ch.foldl (fun a x => max a |x|) m2) m := by
  induction chans generalizing m with
  | nil => exact le_rfl
  | cons ch rest ih => exact le_trans (foldAbs_ge_init ch m) (ih _)

/-- The `loadFile` peak fold dominates the absolute value of every
sample of every channel. -/
theorem peakFold_ge_mem (chans : List (List ℚ)) (m : ℚ) :
    ∀ ch ∈ chans, ∀ x ∈ ch,
      |x| ≤ chans.foldl (fun m2 ch2 => ch2.foldl (fun a y => max a |y|) m2) m := by
  induction chans generalizing m with
  | nil => intro ch hch; simp at hch
  | cons c rest ih =>
      intro ch hch x hx
      rcases List.mem_cons.mp hch with rfl | hch2
      · exact le_trans (foldAbs_ge_mem ch m x hx) (peakFold_ge_init rest _)
      · exact ih _ ch hch2 x hx

/-- The `loadFile` peak fold stays below any bound dominating its start
and all samples. -/
theorem peakFold_le (chans : List (List ℚ)) (m c : ℚ) (hm : m ≤ c)
    (h : ∀ ch ∈ chans, ∀ x ∈ ch, |x| ≤ c) :
    chans.foldl (fun m2 ch => ch.foldl (fun a x => max a |x|) m2) m ≤ c := by
  induction chans generalizing m with
  | nil => exact hm
  | cons ch rest ih =>
      exact ih _ (foldAbs_le ch m c hm (h ch (List.mem_cons_self _ _)))
        (fun ch2 hch2 x hx => h ch2 (List.mem_cons_of_mem _ hch2) x hx)

/-- If a DC-blocker run from a state with `y1 = 0` produces only zero
outputs, then every input equals the stored `x1` and the final state is
unchanged (with `y1 = 0`). -/
theorem dcRun_allzero (l : List ℚ) :
    ∀ d : DCBlocker, d.y1 = 0 → (∀ y ∈ (dcRun d l).2, y = 0) →
      (∀ x ∈ l, x = d.x1) ∧ (dcRun d l).1 = ⟨d.x1, 0⟩ := by
  induction l with
  | nil => intro d hy _; exact ⟨by simp, by cases d; simp_all [dcRun]⟩
  | cons x xs ih =>
      intro d hy hz
      have hx0 : x - d.x1 + (199/200) * d.y1 = 0 := by
        apply hz (x - d.x1 + (199/200) * d.y1)
        simp [dcRun, DCBlocker.process]
      have hxx : x = d.x1 := by rw [hy] at hx0; linarith
      have hstate : (DCBlocker.process d x).1 = (⟨d.x1, 0⟩ : DCBlocker) := by
        simp [DCBlocker.process, hxx, hy]
      have hrest := ih (DCBlocker.process d x).1
        (by rw [hstate])
        (by
          intro y hyy
          apply hz
          simp [dcRun, DCBlocker.process] at hyy ⊢
          exact Or.inr hyy)
      refine ⟨?_, ?_⟩
      · intro z hziz
        rcases List.mem_cons.mp hziz with rfl | hz2
        · exact hxx
        · have := hrest.1 z hz2
          rw [this, hstate]
      · have : (dcRun d (x :: xs)).1 = (dcRun (DCBlocker.process d x).1 xs).1 := by
          simp [dcRun]
        rw [this, hrest.2, hstate]

/-- Channel-threaded version of `dcRun_allzero`: an all-zero DC-blocked
buffer can only come from an input where every sample equals the
initial `x1`. -/
theorem dcChannels_allzero (chans : List (List ℚ)) :
    ∀ d : DCBlocker, d.y1 = 0 → (∀ ch ∈ (dcChannels d chans).2, ∀ y ∈ ch, y = 0) →
      (∀ ch ∈ chans, ∀ x ∈ ch, x = d.x1) ∧ (dcChannels d chans).1 = ⟨d.x1, 0⟩ := by
  induction chans with
  | nil => intro d hy _; exact ⟨by simp, by cases d; simp_all [dcChannels]⟩
  | cons ch rest ih =>
      intro d hy hz
      have hch := dcRun_allzero ch d hy
        (by
          intro y hyy
          apply hz (dcRun d ch).2
          · simp [dcChannels]
          · exact hyy)
      have hrest := ih (dcRun d ch).1
        (by rw [hch.2])
        (by
          intro ch2 hch2 y hyy
          apply hz ch2
          · simp [dcChannels]
            exact Or.inr hch2
          · exact hyy)
      refine ⟨?_, ?_⟩
      · intro ch2 hmem x hx
        rcases List.mem_cons.mp hmem with rfl | hmem2
        · exact hch.1 x hx
        · have := hrest.1 ch2 hmem2 x hx
          rw [this, hch.2]
      · have : (dcChannels d (ch :: rest)).1 = (dcChannels (dcRun d ch).1 rest).1 := by
          simp [dcChannels]
        rw [this, hrest.2, hch.2]

/-- A non-silent decoded buffer has a strictly positive peak after the
DC-blocking pass of `loadFile`. -/
theorem peak_dc_pos (decoded : List (List ℚ))
    (h : ∃ ch ∈ decoded, ∃ x ∈ ch, x ≠ 0) :
    0 < peak ((dcChannels {} decoded).2) := by
  rcases lt_or_eq_of_le (peakFold_ge_init ((dcChannels {} decoded).2) 0) with hlt | heq
  · exact hlt
  · exfalso
    obtain ⟨ch, hch, x, hx, hxne⟩ := h
    have hall : ∀ ch2 ∈ (dcChannels ({} : DCBlocker) decoded).2, ∀ y ∈ ch2, y = 0 := by
      intro ch2 hch2 y hy
      have h1 := peakFold_ge_mem ((dcChannels {} decoded).2) 0 ch2 hch2 y hy
      rw [← heq] at h1
      have h2 := abs_nonneg y
      exact abs_eq_zero.mp (le_antisymm h1 h2)
    have := (dcChannels_allzero decoded {} rfl hall).1 ch hch x hx
    exact hxne (by simpa using this)

/-- The cubic fade gain lies in `[0, 1]` for every index inside the fade
region. -/
theorem smoothGain_mem (i fl : ℕ) (h : i < fl) :
    0 ≤ smoothGain i fl ∧ smoothGain i fl ≤ 1 := by
  have hfl0 : 0 < fl := lt_of_le_of_lt (Nat.zero_le i) h
  have hfl : (0 : ℚ) < fl := by exact_mod_cast hfl0
  have hg0 : (0 : ℚ) ≤ (i : ℚ) / (fl : ℚ) := by positivity
  have hg1 : (i : ℚ) / (fl : ℚ) ≤ 1 := by
    rw [div_le_one hfl]
    exact_mod_cast h.le
  unfold smoothGain
  constructor
  · nlinarith
  · nlinarith [mul_nonneg (mul_nonneg (sub_nonneg.mpr hg1) (sub_nonneg.mpr hg1))
      (by linarith : (0 : ℚ) ≤ 1 + 2 * ((i : ℚ) / (fl : ℚ)))]

/-- A `mapIdx` whose function never increases absolute values preserves
a uniform bound. -/
theorem mapIdx_abs_le (c : ℚ) :
    ∀ (f : ℕ → ℚ → ℚ), (∀ i x, |f i x| ≤ |x|) → ∀ (l : List ℚ),
      (∀ x ∈ l, |x| ≤ c) → ∀ y ∈ l.mapIdx f, |y| ≤ c := by
  intro f hf l
  induction l generalizing f with
  | nil => intro _ y hy; simp at hy
  | cons x xs ih =>
      intro hl y hy
      rw [List.mapIdx_cons] at hy
      rcases List.mem_cons.mp hy with rfl | hy2
      · exact le_trans (hf 0 x) (hl x (List.mem_cons_self _ _))
      · exact ih (fun i => f (i + 1)) (fun i z => hf (i + 1) z)
          (fun z hz => hl z (List.mem_cons_of_mem _ hz)) y hy2

/-- One fade step never increases a sample's absolute value. -/
theorem fadeChannel_step_abs_le (n fl : ℕ) (j : ℕ) (x : ℚ) :
    |(fun j x =>
        let x1 := if j < fl then smoothGain j fl * x else x
        if j < n ∧ n - 1 - j < fl then smoothGain (n - 1 - j) fl * x1 else x1) j x| ≤ |x| := by
  simp only []
  have step : ∀ (cond : Prop) [Decidable cond] (i : ℕ) (z : ℚ), (cond → i < fl) →
      |if cond then smoothGain i fl * z else z| ≤ |z| := by
    intro cond _ i z hcond
    split
    · next hc =>
        obtain ⟨h0, h1⟩ := smoothGain_mem i fl (hcond hc)
        rw [abs_mul, abs_of_nonneg h0]
        exact mul_le_of_le_one_left (abs_nonneg z) h1
    · exact le_rfl
  refine le_trans (step _ _ _ ?_) (step _ _ _ ?_)
  · exact fun hc => hc.2
  · exact fun hc => hc

/-- `applyFades` preserves any uniform bound on absolute sample
values. -/
theorem applyFades_abs_le (chans : List (List ℚ)) (c : ℚ)
    (h : ∀ ch ∈ chans, ∀ x ∈ ch, |x| ≤ c) :
    ∀ ch ∈ applyFades chans, ∀ y ∈ ch, |y| ≤ c := by
  intro ch hch y hy
  simp only [applyFades] at hch
  by_cases hn : (chans.headD []).length < 100
  · rw [if_pos hn] at hch
    exact h ch hch y hy
  · rw [if_neg hn] at hch
    rcases List.mem_map.mp hch with ⟨ch0, hch0, rfl⟩
    unfold fadeChannel at hy
    exact mapIdx_abs_le c _
      (fun i x => fadeChannel_step_abs_le ((chans.headD []).length)
        (min 1000 ((chans.headD []).length / 10)) i x)
      ch0 (h ch0 hch0) y hy

/-- C6, confirmed: for every decoded buffer that is not identically
zero, the stored buffer produced by the `loadFile` pipeline
(DC-blocking pass, rescale of the peak to 0.95, cubic edge fades) has
peak absolute amplitude at most 0.95. -/
theorem C6_loaded_peak_le (decoded : List (List ℚ))
    (h : ∃ ch ∈ decoded, ∃ x ∈ ch, x ≠ 0) :
    peak (loadBuffer decoded) ≤ 19/20 := by
  simp only [loadBuffer]
  have hm : 0 < peak ((dcChannels {} decoded).2) := peak_dc_pos decoded h
  rw [if_pos hm]
  have hscaled : ∀ ch ∈ ((dcChannels {} decoded).2).map
      (List.map (fun x => x * (19/20 / peak ((dcChannels {} decoded).2)))),
      ∀ y ∈ ch, |y| ≤ 19/20 := by
    intro ch hch y hy
    rcases List.mem_map.mp hch with ⟨ch0, hch0, rfl⟩
    rcases List.mem_map.mp hy with ⟨x, hx, rfl⟩
    have hxb : |x| ≤ peak ((dcChannels {} decoded).2) :=
      peakFold_ge_mem _ 0 ch0 hch0 x hx
    rw [abs_mul, abs_of_nonneg (by positivity :
      (0 : ℚ) ≤ 19/20 / peak ((dcChannels {} decoded).2))]
    rw [div_eq_mul_inv]
    calc |x| * (19/20 * (peak ((dcChannels {} decoded).2))⁻¹)
        ≤ peak ((dcChannels {} decoded).2) * (19/20 * (peak ((dcChannels {} decoded).2))⁻¹) := by
          apply mul_le_mul_of_nonneg_right hxb
          positivity
      _ = 19/20 := by
          field_simp
          ring
  exact peakFold_le _ 0 (19/20) (by norm_num) (applyFades_abs_le _ _ hscaled)

/-- C6 witness: loading the one-sample decoded buffer `[[1]]` (nonzero)
yields the buffer `[[0.95]]`, whose peak is exactly 0.95 ≤ 0.95. -/
theorem C6_loaded_peak_le_witness :
    (∃ ch ∈ [[(1 : ℚ)]], ∃ x ∈ ch, x ≠ 0) ∧ peak (loadBuffer [[(1 : ℚ)]]) ≤ 19/20 :=
  ⟨⟨[(1 : ℚ)], by simp, 1, by simp, one_ne_zero⟩,
   C6_loaded_peak_le [[(1 : ℚ)]] ⟨[(1 : ℚ)], by simp, 1, by simp, one_ne_zero⟩⟩

/-! Claim C8. -/

/-- Reading a field after writing one slot of the voice array: if the
written voice agrees with the old slot on the field, every slot reads
back unchanged on that field. -/
theorem getD_set_proj {α : Type} (l : List Voice) (vi i : ℕ) (v : Voice)
    (f : Voice → α) (hfv : f v = f (l.getD vi default)) :
    f ((l.set vi v).getD i default) = f (l.getD i default) := by
  rw [List.getD_eq_getElem?_getD, List.getD_eq_getElem?_getD, List.getElem?_set]
  by_cases hiv : vi = i
  · subst hiv
    by_cases hlen : vi < l.length
    · rw [if_pos rfl, if_pos hlen]
      rw [Option.getD_some, hfv, List.getD_eq_getElem?_getD]
    · rw [if_pos rfl, if_neg hlen]
      rw [List.getElem?_eq_none (le_of_not_lt hlen)]
  · rw [if_neg hiv]

/-- Writing two voices with equal grain lists into the same slot yields
equal grain reads at that slot. -/
theorem getD_set_grains_eq (l : List Voice) (vi : ℕ) (a b : Voice)
    (hab : a.grains = b.grains) :
    ((l.set vi a).getD vi default).grains = ((l.set vi b).getD vi default).grains := by
  rw [List.getD_eq_getElem?_getD, List.getD_eq_getElem?_getD, List.getElem?_set,
    List.getElem?_set]
  by_cases hlen : vi < l.length
  · simp [hlen, hab]
  · simp [hlen]

/-- The `stopVoice` per-voice map never changes a voice's grain list. -/
theorem getD_map_stop_grains (l2 : List Voice) (vi : ℕ) (note : ℤ) :
    (((l2.map (fun v => if v.isActive = true ∧ v.midiNote = note then
        { v with envelope := v.envelope.noteOff } else v)).getD vi default)).grains =
      ((l2.getD vi default)).grains := by
  rw [List.getD_eq_getElem?_getD, List.getD_eq_getElem?_getD, List.getElem?_map]
  cases h : l2[vi]? with
  | none => rfl
  | some v =>
      by_cases hc : v.isActive = true ∧ v.midiNote = note
      · simp [hc]
      · simp [hc]

/-- The voice chosen by the acquisition scan of `startVoice` is a valid
index, and the scan touches nothing but the voice array. -/
theorem chooseVoice_spec (p : Player) (k : ℕ) (p1 : Player)
    (h : chooseVoice p = some (k, p1)) :
    k < p1.voices.length ∧ p1.voices.length = p.voices.length ∧
    p1.isHoldMode = p.isHoldMode ∧ p1.holdPosition = p.holdPosition ∧
    p1.playbackMode = p.playbackMode ∧ p1.fileBuffer = p.fileBuffer := by
  unfold chooseVoice at h
  cases hf : findFreeVoice p with
  | some i =>
      rw [hf] at h
      simp only [Option.some.injEq, Prod.mk.injEq] at h
      obtain ⟨rfl, rfl⟩ := h
      obtain ⟨hlt, -, -⟩ := List.findIdx?_eq_some_iff_getElem.mp hf
      exact ⟨hlt, rfl, rfl, rfl, rfl, rfl⟩
  | none =>
      rw [hf] at h
      simp only [] at h
      cases hidle : (if p.playbackMode = PlaybackMode.OneShot then
          p.voices.findIdx? (fun v => v.envelope.state = EnvState.Idle) else none) with
      | some i =>
          rw [hidle] at h
          simp only [Option.some.injEq, Prod.mk.injEq] at h
          obtain ⟨rfl, rfl⟩ := h
          by_cases hmode : p.playbackMode = PlaybackMode.OneShot
          · rw [if_pos hmode] at hidle
            obtain ⟨hlt, -, -⟩ := List.findIdx?_eq_some_iff_getElem.mp hidle
            exact ⟨hlt, rfl, rfl, rfl, rfl, rfl⟩
          · rw [if_neg hmode] at hidle
            exact absurd hidle (by simp)
      | none =>
          rw [hidle] at h
          cases hf2 : findFreeVoice (stealVoice p) with
          | some i =>
              rw [hf2] at h
              simp only [Option.some.injEq, Prod.mk.injEq] at h
              obtain ⟨rfl, rfl⟩ := h
              obtain ⟨hlt, -, -⟩ := List.findIdx?_eq_some_iff_getElem.mp hf2
              refine ⟨hlt, ?_, rfl, rfl, rfl, rfl⟩
              simp [stealVoice]
          | none =>
              rw [hf2] at h
              exact absurd h (by simp)

/-- C8, confirmed: while hold mode is enabled, the per-sample voice
update leaves every voice's position and envelope unchanged, and the
grain bookkeeping of the updated voice proceeds exactly as it would
with hold disabled; and a note-on that claims a voice while hold mode
is active starts that voice at the current hold position instead of 0. -/
theorem C8_hold_freezes_position (ctx : MathCtx) (p : Player) (vi : ℕ)
    (note : ℤ) (vel : ℚ) (hh : p.isHoldMode = true) :
    (∀ i, ((updateGrains ctx p vi).voices.getD i default).position =
      (p.voices.getD i default).position) ∧
    (∀ i, ((updateGrains ctx p vi).voices.getD i default).envelope =
      (p.voices.getD i default).envelope) ∧
    ((updateGrains ctx p vi).voices.getD vi default).grains =
      ((updateGrains ctx { p with isHoldMode := false } vi).voices.getD vi default).grains ∧
    (∀ k p1, chooseVoice p = some (k, p1) →
      ((startVoice ctx p note vel).voices.getD k default).position = p.holdPosition) := by
  refine ⟨?_, ?_, ?_, ?_⟩
  · intro i
    unfold updateGrains
    simp only [hh, if_true]
    exact getD_set_proj p.voices vi i _ (fun v => v.position) rfl
  · intro i
    unfold updateGrains
    simp only [hh, if_true]
    exact getD_set_proj p.voices vi i _ (fun v => v.envelope) rfl
  · unfold updateGrains stopVoice
    simp only [hh, if_true, Bool.false_eq_true, if_false]
    split
    all_goals
      split
      · rw [List.set_set, List.set_set]
        exact getD_set_grains_eq _ _ _ _ rfl
      · split
        · split
          · rw [List.set_set, getD_map_stop_grains]
            exact getD_set_grains_eq _ _ _ _ rfl
          · rw [List.set_set]
            exact getD_set_grains_eq _ _ _ _ rfl
        · rw [List.set_set]
          exact getD_set_grains_eq _ _ _ _ rfl
  · intro k p1 hcv
    obtain ⟨hk, hlen, hhold, hpos, hmode, hfile⟩ := chooseVoice_spec p k p1 hcv
    unfold startVoice
    rw [hcv]
    rw [List.getD_eq_getElem?_getD, List.getElem?_set_self hk, Option.getD_some]
    split <;> simp [hhold, hh, hpos, Envelope.noteOn]

/-- C8 witness: on the concrete hold-mode player (hold position 5), the
per-sample update leaves all positions and envelopes unchanged, the
grain update matches the non-hold one, and a note-on inherits position
5 through the claimed free voice. -/
theorem C8_hold_freezes_position_witness :
    holdPlayer.isHoldMode = true ∧
    ((∀ i, ((updateGrains ctxStub holdPlayer 0).voices.getD i default).position =
        (holdPlayer.voices.getD i default).position) ∧
     (∀ i, ((updateGrains ctxStub holdPlayer 0).voices.getD i default).envelope =
        (holdPlayer.voices.getD i default).envelope) ∧
     ((updateGrains ctxStub holdPlayer 0).voices.getD 0 default).grains =
       ((updateGrains ctxStub { holdPlayer with isHoldMode := false } 0).voices.getD 0
         default).grains ∧
     (∀ k p1, chooseVoice holdPlayer = some (k, p1) →
       ((startVoice ctxStub holdPlayer 72 1).voices.getD k default).position =
         holdPlayer.holdPosition)) :=
  ⟨by norm_num [holdPlayer],
   C8_hold_freezes_position ctxStub holdPlayer 0 72 1 (by norm_num [holdPlayer])⟩

/-! Claim C9. -/

/-- The steal scan's best level never rises and ends below every
visited level. -/
theorem scanMinAux_le (vs : List Voice) : ∀ (i : ℕ) (acc : ℕ × ℚ),
    (scanMinAux i acc vs).2 ≤ acc.2 ∧
    ∀ v ∈ vs, (scanMinAux i acc vs).2 ≤ v.envelope.currentLevel := by
  induction vs with
  | nil => intro i acc; exact ⟨le_rfl, by simp⟩
  | cons v rest ih =>
      intro i acc
      unfold scanMinAux
      by_cases hc : v.envelope.currentLevel < acc.2
      · rw [if_pos hc]
        obtain ⟨h1, h2⟩ := ih (i + 1) (i, v.envelope.currentLevel)
        refine ⟨le_trans h1 hc.le, ?_⟩
        intro w hw
        rcases List.mem_cons.mp hw with rfl | hw2
        · exact h1
        · exact h2 w hw2
      · rw [if_neg hc]
        obtain ⟨h1, h2⟩ := ih (i + 1) acc
        refine ⟨h1, ?_⟩
        intro w hw
        rcases List.mem_cons.mp hw with rfl | hw2
        · exact le_trans h1 (le_of_not_lt hc)
        · exact h2 w hw2

/-- The steal scan either keeps its accumulator or returns the offset
index of a voice achieving the final best level. -/
theorem scanMinAux_result (vs : List Voice) : ∀ (i : ℕ) (acc : ℕ × ℚ),
    scanMinAux i acc vs = acc ∨
    ∃ j, ∃ h : j < vs.length, (scanMinAux i acc vs).1 = i + j ∧
      (vs.get ⟨j, h⟩).envelope.currentLevel = (scanMinAux i acc vs).2 := by
  induction vs with
  | nil => intro i acc; exact Or.inl rfl
  | cons v rest ih =>
      intro i acc
      unfold scanMinAux
      by_cases hc : v.envelope.currentLevel < acc.2
      · rw [if_pos hc]
        rcases ih (i + 1) (i, v.envelope.currentLevel) with heq | ⟨j, hj, h1, h2⟩
        · right
          refine ⟨0, by simp, ?_, ?_⟩
          · rw [heq]
            simp
          · rw [heq]
            simp
        · right
          refine ⟨j + 1, by simpa using Nat.succ_lt_succ hj, ?_, ?_⟩
          · rw [h1]
            omega
          · simpa using h2
      · rw [if_neg hc]
        rcases ih (i + 1) acc with heq | ⟨j, hj, h1, h2⟩
        · exact Or.inl heq
        · right
          refine ⟨j + 1, by simpa using Nat.succ_lt_succ hj, ?_, ?_⟩
          · rw [h1]
            omega
          · simpa using h2

/-- The index `stealVoice` picks is in range and achieves the minimum
envelope level, provided every level is below float max (the scan's
initial `lowestLevel`). -/
theorem stealIndex_spec (vs : List Voice) (hne : vs ≠ [])
    (hfin : ∀ v ∈ vs, v.envelope.currentLevel < floatMax) :
    ∃ h : stealIndex vs < vs.length,
      ∀ v ∈ vs, (vs.get ⟨stealIndex vs, h⟩).envelope.currentLevel ≤
        v.envelope.currentLevel := by
  have hle := scanMinAux_le vs 0 (0, floatMax)
  rcases scanMinAux_result vs 0 (0, floatMax) with heq | ⟨j, hj, h1, h2⟩
  · exfalso
    obtain ⟨w, hw⟩ := List.exists_mem_of_ne_nil vs hne
    have h2 := hle.2 w hw
    rw [heq] at h2
    exact absurd (lt_of_le_of_lt h2 (hfin w hw)) (lt_irrefl _)
  · have hsi : stealIndex vs = j := by
      unfold stealIndex
      rw [h1]
      omega
    refine ⟨hsi ▸ hj, ?_⟩
    intro v hv
    have := hle.2 v hv
    have hg : (vs.get ⟨stealIndex vs, hsi ▸ hj⟩).envelope.currentLevel =
        (scanMinAux 0 (0, floatMax) vs).2 := by
      subst hsi
      exact h2
    rw [hg]
    exact this

/-- On a list whose first `k` entries fail the predicate, setting index
`k` to a satisfying element makes `findIdx?` return `k`. -/
theorem findIdx?_set_first (l : List Voice) (k : ℕ) (x : Voice) (pred : Voice → Bool)
    (hk : k < l.length)
    (hbefore : ∀ j (hj : j < l.length), j < k → pred (l.get ⟨j, hj⟩) = false)
    (hx : pred x = true) : (l.set k x).findIdx? pred = some k := by
  have hbefore2 : ∀ j (hj : j < l.length), j < k → pred l[j] = false := by
    intro j hj hjk
    have := hbefore j hj hjk
    simpa [List.get_eq_getElem] using this
  apply List.findIdx?_eq_some_iff_getElem.mpr
  refine ⟨by simpa using hk, ?_, ?_⟩
  · rw [List.getElem_set_self]
    exact hx
  · intro j hji
    have hjl : j < l.length := lt_trans hji hk
    rw [List.getElem_set_ne (Nat.ne_of_gt hji)]
    simp only [Bool.not_eq_true]
    exact hbefore2 j hjl hji

/-- C9, corrected: when all 16 voices are active with pairwise distinct
envelope levels (all below float max) and a 17th note-on arrives — and
the mode is not OneShot-with-an-Idle-envelope, where the code prefers
the Idle voice instead — exactly one voice is stolen: the voice whose
envelope level is strictly lowest is reset and reused with the new note
and pitch ratio `pow(2, (note - 60) / 12)`, and every other voice is
left completely unchanged. -/
theorem C9_seventeenth_note_steals_quietest (ctx : MathCtx) (p : Player)
    (note : ℤ) (vel : ℚ)
    (hlen : p.voices.length = 16)
    (hact : ∀ v ∈ p.voices, v.isActive = true)
    (hdist : (p.voices.map (fun v => v.envelope.currentLevel)).Pairwise (· ≠ ·))
    (hfin : ∀ v ∈ p.voices, v.envelope.currentLevel < floatMax)
    (hmode : p.playbackMode ≠ PlaybackMode.OneShot ∨
      ∀ v ∈ p.voices, v.envelope.state ≠ EnvState.Idle) :
    stealIndex p.voices < 16 ∧
    (∀ j, j < 16 → j ≠ stealIndex p.voices →
      (startVoice ctx p note vel).voices.getD j default = p.voices.getD j default) ∧
    (∀ j, ∀ hj : j < 16, j ≠ stealIndex p.voices →
      (p.voices.getD (stealIndex p.voices) default).envelope.currentLevel <
        (p.voices.getD j default).envelope.currentLevel) ∧
    ((startVoice ctx p note vel).voices.getD (stealIndex p.voices) default).isActive = true ∧
    ((startVoice ctx p note vel).voices.getD (stealIndex p.voices) default).midiNote = note ∧
    ((startVoice ctx p note vel).voices.getD (stealIndex p.voices) default).pitchRatio =
      ctx.pow2 (((note : ℚ) - 60) / 12) := by
  have hne : p.voices ≠ [] := by
    intro hnil
    rw [hnil] at hlen
    simp at hlen
  obtain ⟨hk, hmin⟩ := stealIndex_spec p.voices hne hfin
  have hfree : findFreeVoice p = none := by
    unfold findFreeVoice
    apply List.findIdx?_eq_none_iff.mpr
    intro v hv
    simp [hact v hv]
  have hfree2 : findFreeVoice (stealVoice p) = some (stealIndex p.voices) := by
    unfold findFreeVoice stealVoice
    apply findIdx?_set_first
    · exact hk
    · intro j hj hjk
      simp [List.get_eq_getElem, hact (p.voices[j]) (List.getElem_mem hj)]
    · simp [Voice.reset]
  have hidle : (if p.playbackMode = PlaybackMode.OneShot then
      p.voices.findIdx? (fun v => v.envelope.state = EnvState.Idle) else none) = none := by
    rcases hmode with hm | hm
    · rw [if_neg hm]
    · split
      · apply List.findIdx?_eq_none_iff.mpr
        intro v hv
        simp [hm v hv]
      · rfl
  have hchoose : chooseVoice p = some (stealIndex p.voices, stealVoice p) := by
    unfold chooseVoice
    simp only [hfree, hidle, hfree2]
  have hklen : stealIndex p.voices < (stealVoice p).voices.length := by
    simpa [stealVoice] using hk
  refine ⟨hlen ▸ hk, ?_, ?_, ?_, ?_, ?_⟩
  · intro j hj16 hjk
    unfold startVoice
    rw [hchoose]
    show ((((stealVoice p).voices.set (stealIndex p.voices) _)).getD j default) = _
    rw [List.getD_eq_getElem?_getD, List.getElem?_set_ne (fun h => hjk h.symm)]
    unfold stealVoice
    rw [List.getElem?_set_ne (fun h => hjk h.symm), ← List.getD_eq_getElem?_getD]
  · intro j hj16 hjk
    have hjlen : j < p.voices.length := hlen ▸ hj16
    have hle2 := hmin (p.voices[j]) (List.getElem_mem hjlen)
    simp only [List.get_eq_getElem] at hle2 hmin
    have hne2 : (p.voices[stealIndex p.voices]).envelope.currentLevel ≠
        (p.voices[j]).envelope.currentLevel := by
      have hpg := List.pairwise_iff_getElem.mp hdist
      rcases Nat.lt_or_gt_of_ne (fun h => hjk h.symm) with hlt | hgt
      · have := hpg (stealIndex p.voices) j (by simpa using hk) (by simpa using hjlen) hlt
        simpa using this
      · have := hpg j (stealIndex p.voices) (by simpa using hjlen) (by simpa using hk) hgt
        have h2 : ¬ (p.voices[j]).envelope.currentLevel =
            (p.voices[stealIndex p.voices]).envelope.currentLevel := by simpa using this
        exact fun heq => h2 heq.symm
    rw [List.getD_eq_getElem p.voices default hk, List.getD_eq_getElem p.voices default hjlen]
    exact lt_of_le_of_ne hle2 hne2
  · unfold startVoice
    rw [hchoose]
    rw [List.getD_eq_getElem?_getD, List.getElem?_set_self hklen, Option.getD_some]
    split <;> rfl
  · unfold startVoice
    rw [hchoose]
    rw [List.getD_eq_getElem?_getD, List.getElem?_set_self hklen, Option.getD_some]
    split <;> rfl
  · unfold startVoice
    rw [hchoose]
    rw [List.getD_eq_getElem?_getD, List.getElem?_set_self hklen, Option.getD_some]
    split <;> rfl

/-- C9 counterexample: in OneShot mode with all 16 voices active at
pairwise distinct levels — the claim's hypotheses — the 17th note-on
reuses the voice whose envelope is Idle (voice 0, stale level 1), not
the quietest voice (voice 1, level 0), which keeps its old note. -/
theorem C9_oneShot_reuses_idle_not_quietest :
    fullPoolIdle.voices.length = 16 ∧
    (∀ v ∈ fullPoolIdle.voices, v.isActive = true) ∧
    (fullPoolIdle.voices.map (fun v => v.envelope.currentLevel)).Pairwise (· ≠ ·) ∧
    (∀ v ∈ fullPoolIdle.voices,
      (fullPoolIdle.voices.getD 1 default).envelope.currentLevel ≤
        v.envelope.currentLevel) ∧
    ((startVoice ctxStub fullPoolIdle 77 (1/2)).voices.getD 1 default).midiNote = 11 ∧
    ((startVoice ctxStub fullPoolIdle 77 (1/2)).voices.getD 1 default).envelope.currentLevel
      = 0 ∧
    ((startVoice ctxStub fullPoolIdle 77 (1/2)).voices.getD 0 default).midiNote = 77 := by
  norm_num +decide [startVoice, chooseVoice, findFreeVoice, stealVoice, stealIndex,
    scanMinAux, Voice.reset, Envelope.noteOn, fullPoolIdle, mkActiveVoice, fourteenVoices,
    ctxStub, floatMax]

set_option maxHeartbeats 2000000 in
/-- C9 witness: on the Polyphonic full pool, the 17th note-on steals
exactly the quietest voice (index `stealIndex`), which is voice 1. -/
theorem C9_seventeenth_note_steals_quietest_witness :
    (fullPoolPoly.voices.length = 16 ∧
     (∀ v ∈ fullPoolPoly.voices, v.isActive = true) ∧
     (fullPoolPoly.voices.map (fun v => v.envelope.currentLevel)).Pairwise (· ≠ ·) ∧
     (∀ v ∈ fullPoolPoly.voices, v.envelope.currentLevel < floatMax) ∧
     (fullPoolPoly.playbackMode ≠ PlaybackMode.OneShot ∨
       ∀ v ∈ fullPoolPoly.voices, v.envelope.state ≠ EnvState.Idle)) ∧
    (stealIndex fullPoolPoly.voices < 16 ∧
     (∀ j, j < 16 → j ≠ stealIndex fullPoolPoly.voices →
       (startVoice ctxStub fullPoolPoly 77 (1/2)).voices.getD j default =
         fullPoolPoly.voices.getD j default) ∧
     (∀ j, ∀ hj : j < 16, j ≠ stealIndex fullPoolPoly.voices →
       (fullPoolPoly.voices.getD (stealIndex fullPoolPoly.voices)
           default).envelope.currentLevel <
         (fullPoolPoly.voices.getD j default).envelope.currentLevel) ∧
     ((startVoice ctxStub fullPoolPoly 77 (1/2)).voices.getD
        (stealIndex fullPoolPoly.voices) default).isActive = true ∧
     ((startVoice ctxStub fullPoolPoly 77 (1/2)).voices.getD
        (stealIndex fullPoolPoly.voices) default).midiNote = 77 ∧
     ((startVoice ctxStub fullPoolPoly 77 (1/2)).voices.getD
        (stealIndex fullPoolPoly.voices) default).pitchRatio =
       ctxStub.pow2 (((77 : ℚ) - 60) / 12)) :=
  ⟨⟨by norm_num [fullPoolPoly, fullPoolIdle, mkActiveVoice, fourteenVoices],
    by norm_num +decide [fullPoolPoly, fullPoolIdle, mkActiveVoice, fourteenVoices],
    by norm_num +decide [fullPoolPoly, fullPoolIdle, mkActiveVoice, fourteenVoices],
    by norm_num +decide [fullPoolPoly, fullPoolIdle, mkActiveVoice, fourteenVoices,
      floatMax],
    Or.inl (by decide)⟩,
   C9_seventeenth_note_steals_quietest ctxStub fullPoolPoly 77 (1/2)
     (by norm_num [fullPoolPoly, fullPoolIdle, mkActiveVoice, fourteenVoices])
     (by norm_num +decide [fullPoolPoly, fullPoolIdle, mkActiveVoice, fourteenVoices])
     (by norm_num +decide [fullPoolPoly, fullPoolIdle, mkActiveVoice, fourteenVoices])
     (by norm_num +decide [fullPoolPoly, fullPoolIdle, mkActiveVoice, fourteenVoices,
       floatMax])
     (Or.inl (by decide))⟩

/-! Claim C10. -/

/-- C10 counterexample: starting from a loaded two-sample file, a
note-on for note 60 (pitch ratio 1) followed by three per-sample
position updates with looping disabled drives the still-active voice to
position 3, so `getCurrentPosition` returns 3/2 > 1 — the telemetry
value escapes `[0, 1]` in a reachable state. -/
theorem C10_position_exceeds_one :
    getCurrentPosition afterThreeSamples = 3/2 ∧
    ¬ (getCurrentPosition afterThreeSamples ≤ 1) := by
  norm_num +decide [afterThreeSamples, afterNoteOn, loadedTwoSample, handleNoteOn,
    startVoice, chooseVoice, findFreeVoice, stealVoice, stealIndex, scanMinAux,
    updateGrains, stopVoice, getCurrentPosition, numSamples, loadBuffer, dcChannels,
    dcRun, DCBlocker.process, DCBlocker.reset, peak, applyFades, Voice.reset,
    Envelope.noteOn, Envelope.noteOff, ctxStub, floatMax, List.replicate, List.set,
    List.find?]

/-- C10, corrected: `getCurrentPosition` returns 0 when no voice is
active, and returns firstActive.position / bufferLength — a value in
`[0, 1]` only while that voice's position actually lies inside the
buffer; after a non-looping overrun the voice stays active with its
position past the end, so the quotient exceeds 1. -/
theorem C10_position_formula (p : Player) :
    ((∀ v ∈ p.voices, v.isActive = false) → getCurrentPosition p = 0) ∧
    (∀ v, p.voices.find? (fun v => v.isActive) = some v →
      0 < numSamples p → 0 ≤ v.position → v.position ≤ (numSamples p : ℚ) →
      0 ≤ getCurrentPosition p ∧ getCurrentPosition p ≤ 1) := by
  constructor
  · intro h
    unfold getCurrentPosition
    rw [List.find?_eq_none.mpr (fun v hv => by simp [h v hv])]
  · intro v hfind hn h0 h1
    unfold getCurrentPosition
    rw [hfind]
    rw [if_pos hn]
    have hq : (0 : ℚ) < (numSamples p : ℚ) := by exact_mod_cast hn
    constructor
    · exact div_nonneg h0 hq.le
    · rw [div_le_one hq]
      exact h1

/-- C10 witness: one active voice halfway through a two-sample buffer
reads back position 1/2, inside `[0, 1]`. -/
theorem C10_position_formula_witness :
    (halfwayPlayer.voices.find? (fun v => v.isActive) =
        some ({ isActive := true, position := 1 } : Voice) ∧
      0 < numSamples halfwayPlayer ∧ (0 : ℚ) ≤ 1 ∧
      (1 : ℚ) ≤ (numSamples halfwayPlayer : ℚ)) ∧
    (0 ≤ getCurrentPosition halfwayPlayer ∧ getCurrentPosition halfwayPlayer ≤ 1) :=
  ⟨⟨by norm_num +decide [halfwayPlayer], by norm_num [halfwayPlayer, numSamples],
    by norm_num, by norm_num [halfwayPlayer, numSamples]⟩,
   (C10_position_formula halfwayPlayer).2 ({ isActive := true, position := 1 } : Voice)
     (by norm_num +decide [halfwayPlayer])
     (by norm_num [halfwayPlayer, numSamples])
     (by norm_num)
     (by norm_num [halfwayPlayer, numSamples])⟩

end Speculator
